import Mathlib

/-!
# Verification of the `ParallelFlow` coordinator (`mdp/parallel/parallelflows.py`)

A shallow embedding of the parallel-flow coordinator: the state machine that
hands out training / execution tasks to an external scheduler, merges partial
results back, and advances through the nodes and training phases of a flow.

Conventions of the embedding:
* data chunks (numeric arrays) are modelled as `List Int`;
* Python exceptions are modelled by an explicit error type `Err`; a function
  that can raise returns the raised error together with the object state at
  the moment the exception propagates (Python leaves partially-mutated state
  behind on an exception);
* the side effects which the claims quantify over (`join`, `stop_training`,
  the post-stop-training hook point, checkpoint invocations, scheduler
  `shutdown` / `add_task` calls and pulls from the scheduler sequence) are
  recorded in an event trace;
* unbounded Python `while` loops are modelled with an explicit fuel
  parameter; running out of fuel yields the distinguished error
  `Err.outOfFuel`, which never corresponds to a Python behaviour, so all
  theorems about completed runs exclude it by requiring an `.ok` result.
-/

namespace ParallelFlows

/-- A data chunk (a numeric array in the source). -/
abbrev Chunk := List Int

/-- The callable carried in the first task of a phase: either a
`FlowTrainCallable` (wrapping a fork of the current flownode) or a
`FlowExecuteCallable` (wrapping a copy of the whole flow). The coordinator
itself only ever stores and forwards these, so they are modelled as tags. -/
inductive TCallable where
  | trainC : TCallable
  | execC : TCallable
deriving DecidableEq, Repr

/-- A task handed to the scheduler: a data chunk plus an optional callable
(`None` in the source means: reuse the callable of the first task). -/
abbrev Task := Chunk × Option TCallable

/-- Modelled from the spec: the node capability set
(`is_training`, `get_current_train_phase`, `get_remaining_train_phase`,
`fork`, `join`, `stop_training`) lives in `mdp` node classes that are not part
of the two source files. Per the spec (section 6) a node exposes a current
train-phase counter and a remaining-phase counter, and may refuse `fork` with
the non-parallelizable-phase signal. `currentPhase` starts at `0` for an
untrained node and is incremented by each `stop_training` (consistent with
the source, whose error message equates `get_current_train_phase() == 1` with
the second training phase); `remaining` is the number of still-open phases, so
`is_training` is `remaining ≠ 0`; `forkable p` tells whether `fork` succeeds
in phase `p` (the source retries `fork` for every phase). -/
structure Node where
  remaining : Nat
  currentPhase : Nat
  forkable : Nat → Bool

instance : Inhabited Node := ⟨⟨0, 0, fun _ => false⟩⟩

/-- `stop_training` closes the current phase of a node. -/
def stopNode (node : Node) : Node :=
  { node with remaining := node.remaining - 1, currentPhase := node.currentPhase + 1 }

/-- `is_training` of a node. -/
def Node.isTraining (node : Node) : Bool :=
  node.remaining ≠ 0

/-- A checkpoint function: receives the trained node and returns a dict of
attributes to inject into the coordinator (the empty list models both `None`
and the falsy empty dict, which the source ignores). -/
abbrev CheckFn := Node → List (Nat × Int)

/-- The exceptions the coordinator can raise. -/
inductive Err where
  | parallelTrainingUnderway : Err
  | trainCallableNoScheduler : Err
  | iteratorEmpty (nodeNo : Nat) : Err
  | iteratorNotRepeatable (nodeNo : Nat) : Err
  | execIteratorEmpty : Err
  | noDataForTask : Err
  | noTaskAvailable : Err
  | noResults : Err
  | indexError : Err
  | stopIteration : Err
  | attributeError : Err
  | badIterables : Err
  | outOfFuel : Err
deriving DecidableEq, Repr

/-- Observable events of a run. `checkpoint i r` records an invocation of the
checkpoint function of node `i` while that node had `r` remaining phases. -/
inductive Event where
  | join (i : Nat) (r : Chunk) : Event
  | stopT (i : Nat) : Event
  | hookPoint (i : Nat) : Event
  | checkpoint (i : Nat) (remaining : Nat) : Event
  | localTrain (i : Nat) (d : Chunk) : Event
  | pullSched (sid : Option Nat) : Event
  | shutdown (sid : Nat) : Event
  | addTask (sid : Nat) (node : Option Nat) : Event
deriving DecidableEq, Repr

/-- The coordinator state (`ParallelFlow.__init__` plus the checkpoint data of
`ParallelCheckpointFlow`; a plain `ParallelFlow` is the special case where
every entry of `checkpoints` is `none`, making the post-stop-training hook a
no-op as in the base class). The flownode built by `_next_train_phase` wraps
the same node objects as `flow`, so its `stop_training` acts on the node at
the current index and needs no separate field. The callable-class fields are
not modelled: the default callable classes are always used, represented by
the `TCallable` tags. -/
structure PFState where
  flow : List Node
  checkpoints : List (Option CheckFn)
  attrs : List (Nat × Int)
  trainIterables : List (Nat → List Chunk)
  trainIter : List Chunk
  iTrainNode : Option Nat
  execIter : Option (List Chunk)
  nextTask : Option Task
  crashRecovery : Bool

/-- Modelled from the spec: the keyword arguments consumed by the base
`Flow.__init__`, which is not part of the source files; only the
`crash_recovery` flag is relevant to the claims. -/
structure FlowKwargs where
  crash_recovery : Bool

/-- Modelled from the spec: the base `Flow.__init__` (not in the source
files) stores the flow and the `crash_recovery` keyword argument as given. -/
def baseFlowInit (flow : List Node) (checkpoints : List (Option CheckFn))
    (kwargs : FlowKwargs) : PFState :=
  { flow := flow
    checkpoints := checkpoints
    attrs := []
    trainIterables := []
    trainIter := []
    iTrainNode := none
    execIter := none
    nextTask := none
    crashRecovery := kwargs.crash_recovery }

/-- `ParallelFlow.__init__`: the kwargs actually forwarded to the base
constructor, after the source line `kwargs["crash_recovery"] = False`. -/
def pfInitKwargs (kwargs : FlowKwargs) : FlowKwargs :=
  { kwargs with crash_recovery := false }

/-- `ParallelFlow.__init__` (composed with `ParallelCheckpointFlow.__init__`
for the checkpoint list): overwrites the `crash_recovery` kwarg with `False`
and delegates to the base constructor. -/
def pfInit (flow : List Node) (checkpoints : List (Option CheckFn))
    (kwargs : FlowKwargs) : PFState :=
  baseFlowInit flow checkpoints (pfInitKwargs kwargs)

/-- The `is_parallel_training` property. -/
def is_parallel_training (s : PFState) : Bool :=
  s.iTrainNode.isSome

/-- The `is_parallel_executing` property. -/
def is_parallel_executing (s : PFState) : Bool :=
  s.execIter.isSome

/-- The `task_available` property: the one-task lookahead buffer is full. -/
def task_available (s : PFState) : Bool :=
  s.nextTask.isSome

/-- `_create_train_task`: pull one chunk from the training data iterator,
pairing it with `None`; `none` when the iterator is exhausted. -/
def createTrainTask (iter : List Chunk) : Option Task × List Chunk :=
  match iter with
  | [] => (none, [])
  | c :: cs => (some (c, none), cs)

/-- `_create_execute_task`: pull one chunk from the execution data iterator,
pairing it with `None`; `none` when the iterator is exhausted. -/
def createExecTask (iter : List Chunk) : Option Task × List Chunk :=
  match iter with
  | [] => (none, [])
  | c :: cs => (some (c, none), cs)

/-- `get_task`: hand out the buffered task and refill the buffer from the
data iterator of the active mode. Raises `NoTaskException` when the buffer is
empty, and also (with a different message) when a task is buffered but
neither parallel training nor parallel execution is active. The state is
returned alongside the result: on an exception no field has been assigned,
so the state is unchanged. -/
def get_task (s : PFState) : Except Err Task × PFState :=
  match s.nextTask with
  | some task =>
    match s.iTrainNode with
    | some _ =>
      let p := createTrainTask s.trainIter
      (.ok task, { s with nextTask := p.1, trainIter := p.2 })
    | none =>
      match s.execIter with
      | some it =>
        let p := createExecTask it
        (.ok task, { s with nextTask := p.1, execIter := some p.2 })
      | none => (.error .noDataForTask, s)
  | none => (.error .noTaskAvailable, s)

/-- The dictionary-update step used for checkpoint results: set one key,
overriding an existing binding in place or appending a new one. -/
def insertKV (d : List (Nat × Int)) (kv : Nat × Int) : List (Nat × Int) :=
  if d.any (fun p => p.1 == kv.1) then
    d.map (fun p => if p.1 == kv.1 then kv else p)
  else d ++ [kv]

/-- Python `self.__dict__.update(dict)` on the attribute map. -/
def updateAttrs (d upd : List (Nat × Int)) : List (Nat × Int) :=
  upd.foldl insertKV d

/-- `ParallelCheckpointFlow._post_stop_training_hook`: if the node at the
current training index has no remaining training phase and a checkpoint
function is registered for it, invoke the checkpoint function on the (live,
fully trained) node and merge a truthy returned dict into the coordinator
attributes. For a plain `ParallelFlow` every checkpoint entry is `none` and
the hook does nothing, like the base-class `pass`. -/
def postStopHook (s : PFState) (i : Nat) : PFState × List Event :=
  match s.flow.get? i with
  | none => (s, [])
  | some node =>
    if node.remaining = 0 then
      match s.checkpoints.getD i none with
      | some f =>
        let d := f node
        if d = [] then (s, [Event.checkpoint i node.remaining])
        else ({ s with attrs := updateAttrs s.attrs d },
              [Event.checkpoint i node.remaining])
      | none => (s, [])
    else (s, [])

/-- The phase-aware empty-data-source error of `_next_train_phase` and
`_local_train_phase`: the replay diagnostic when the current train phase of
the node is exactly `1`, otherwise the plain empty-iterator diagnostic
(node numbers in the messages are 1-based). -/
def emptyErr (node : Node) (i : Nat) : Err :=
  if node.currentPhase = 1 then .iteratorNotRepeatable (i + 1)
  else .iteratorEmpty (i + 1)

/-- `iter(data_iterable)` for node `i`: one fresh iteration of the caller
supplied iterable. The iterable is modelled as a function from the iteration
round to the yielded chunks; the source takes exactly one iteration per
training phase of the node, so the round is the node's current phase (a
one-shot iterator is the special case that yields `[]` for every round
after the first). -/
def takeIter (its : List (Nat → List Chunk)) (phase : Nat) (i : Nat) : List Chunk :=
  (its.getD i (fun _ => [])) phase

/-- The loop of `_next_train_phase`, with the loop variable `_i_train_node`
threaded explicitly. Walks forward from node `i`: skips nodes which are not
training; at the first training node attempts `fork`. On fork success the
phase data iterator is created, the first chunk pulled (raising the
phase-aware error on an empty iterator) and the first task, carrying a fresh
train callable, is buffered. On the non-parallelizable-phase signal the phase
is trained locally (raising the same phase-aware error on an empty iterable),
closed with `stop_training`, the hook point is run, the index advances iff
the node stopped training, and the walk continues. When the walk passes the
last node, training is finished and the index becomes `None`. -/
def nextTrainPhaseAux : Nat → PFState → Nat → Except Err Unit × PFState × List Event
  | 0, s, i => (.error .outOfFuel, { s with iTrainNode := some i }, [])
  | fuel + 1, s, i =>
    match s.flow.get? i with
    | some node =>
      if node.remaining = 0 then
        nextTrainPhaseAux fuel s (i + 1)
      else
        let chunks := takeIter s.trainIterables node.currentPhase i
        if node.forkable node.currentPhase then
          match chunks with
          | [] =>
            (.error (emptyErr node i),
             { s with iTrainNode := some i, trainIter := [] }, [])
          | c :: rest =>
            (.ok (),
             { s with iTrainNode := some i, trainIter := rest,
                      nextTask := some (c, some .trainC) }, [])
        else
          match chunks with
          | [] => (.error (emptyErr node i), { s with iTrainNode := some i }, [])
          | c :: rest =>
            let evs := (c :: rest).map (Event.localTrain i)
            let node' := stopNode node
            let s1 := { s with flow := s.flow.set i node' }
            let hs := postStopHook s1 i
            let i' := if node'.remaining = 0 then i + 1 else i
            let res := nextTrainPhaseAux fuel hs.1 i'
            (res.1, res.2.1,
             evs ++ [Event.stopT i, Event.hookPoint i] ++ hs.2 ++ res.2.2)
    | none =>
      (.ok (), { s with iTrainNode := none }, [])

/-- `setup_parallel_training`: refuse when parallel training is already
underway, store the checked iterables (the base-class check
`_train_check_iterables`, not in the source files, requires one iterable per
node as stated by the source docstring), set the node index to `0` and run
the advance-to-next-trainable procedure. -/
def setup_parallel_training (fuel : Nat) (s : PFState)
    (its : List (Nat → List Chunk)) : Except Err Unit × PFState × List Event :=
  if s.iTrainNode.isSome then (.error .parallelTrainingUnderway, s, [])
  else if its.length ≠ s.flow.length then (.error .badIterables, s, [])
  else
    nextTrainPhaseAux fuel { s with trainIterables := its, iTrainNode := some 0 } 0

/-- `setup_parallel_execution`: refuse when parallel training is underway,
create the execution data iterator, pull the first chunk (raising the
execute-iterator-empty error if there is none — note the iterator reference
has already been stored, so parallel execution counts as underway even on
this error) and buffer the first task with a fresh execute callable. -/
def setup_parallel_execution (s : PFState) (iterable : List Chunk) :
    Except Err Unit × PFState :=
  if s.iTrainNode.isSome then (.error .parallelTrainingUnderway, s)
  else
    match iterable with
    | [] => (.error .execIteratorEmpty, { s with execIter := some [] })
    | c :: rest =>
      (.ok (),
       { s with execIter := some rest, nextTask := some (c, some .execC) })

/-- `use_results`: during parallel training, `join` every result (in
iteration order) into the live node at the current index, close the phase
with `stop_training`, run the hook point, advance the index iff the node
stopped training, and re-run the advance-to-next-trainable procedure.
During parallel execution, reset the execution iterator and return the
concatenation of the results (the numeric backend concatenation of arrays is
modelled as list flattening). Otherwise a no-op returning `None`. -/
def use_results (fuel : Nat) (s : PFState) (results : List Chunk) :
    Except Err (Option Chunk) × PFState × List Event :=
  match s.iTrainNode with
  | some i =>
    match s.flow.get? i with
    | none => (.error .indexError, s, [])
    | some node =>
      let joinEvs := results.map (Event.join i)
      let node' := stopNode node
      let s1 := { s with flow := s.flow.set i node' }
      let hs := postStopHook s1 i
      let i' := if node'.remaining = 0 then i + 1 else i
      let res := nextTrainPhaseAux fuel hs.1 i'
      (res.1.map (fun _ => none), res.2.1,
       joinEvs ++ [Event.stopT i, Event.hookPoint i] ++ hs.2 ++ res.2.2)
  | none =>
    match s.execIter with
    | some _ => (.ok (some results.flatten), { s with execIter := none }, [])
    | none => (.ok none, s, [])

/-- The task-draining inner loop of the `train` / `execute` drivers:
`while self.task_available: task = self.get_task(); scheduler.add_task(*task)`.
Returns the drained tasks in order; each `add_task` is recorded with the
scheduler id and the node index current at dispatch time. Calling `add_task`
on a `None` scheduler is the Python `AttributeError`. -/
def drainTasks : Nat → PFState → Option Nat →
    Except Err (PFState × List Task × List Event)
  | 0, s, _ =>
    match s.nextTask with
    | none => .ok (s, [], [])
    | some _ => .error .outOfFuel
  | fuel + 1, s, sid =>
    match s.nextTask with
    | none => .ok (s, [], [])
    | some _ =>
      let p := get_task s
      match p.1 with
      | .error e => .error e
      | .ok t =>
        match sid with
        | none => .error .attributeError
        | some id =>
          match drainTasks fuel p.2 sid with
          | .error e => .error e
          | .ok (s2, ts, evs) =>
            .ok (s2, t :: ts, Event.addTask id s.iTrainNode :: evs)

/-- One rotation step of the scheduler sequence, repeated `k` times:
`if scheduler is not None: scheduler.shutdown(); scheduler = schedulers.next()`.
Raises `StopIteration` when the sequence is exhausted. Returns the new active
scheduler and the remaining sequence. -/
def disposeK : Nat → Option Nat → List (Option Nat) →
    Except Err (Option Nat × List (Option Nat)) × List Event
  | 0, cur, scheds => (.ok (cur, scheds), [])
  | k + 1, cur, scheds =>
    let ev1 : List Event :=
      match cur with
      | some id => [Event.shutdown id]
      | none => []
    match scheds with
    | [] => (.error .stopIteration, ev1)
    | c :: rest =>
      let res := disposeK k c rest
      (res.1, ev1 ++ [Event.pullSched c] ++ res.2)

/-- The main loop of `train` in the scheduler-sequence mode: while parallel
training is underway, drain all available tasks to the active scheduler,
fetch the results (the modelled scheduler returns one result per submitted
task, so an empty result set happens exactly when no task was submitted,
which the source treats as fatal), feed them to `use_results`, and if the
node index advanced, dispose as many schedulers as the index advanced.
Returns the result, the final state, the trace, and the scheduler that is
active on exit (to be shut down by the `finally` clause of `train`). -/
def trainLoopMS : Nat → PFState → Option Nat → List (Option Nat) → Nat →
    Except Err Unit × PFState × List Event × Option Nat
  | 0, s, cur, _, _ => (.error .outOfFuel, s, [], cur)
  | fuel + 1, s, cur, rem, last =>
    match s.iTrainNode with
    | none => (.ok (), s, [], cur)
    | some _ =>
      match drainTasks fuel s cur with
      | .error e => (.error e, s, [], cur)
      | .ok (s1, ts, evs1) =>
        if ts.length = 0 then (.error .noResults, s1, evs1, cur)
        else
          let results := List.replicate ts.length ([] : Chunk)
          let ur := use_results fuel s1 results
          match ur.1 with
          | .error e => (.error e, ur.2.1, evs1 ++ ur.2.2, cur)
          | .ok _ =>
            match ur.2.1.iTrainNode with
            | some i =>
              if i > last then
                match disposeK (i - last) cur rem with
                | (.ok (cur2, rem2), evsD) =>
                  let res := trainLoopMS fuel ur.2.1 cur2 rem2 i
                  (res.1, res.2.1, evs1 ++ ur.2.2 ++ evsD ++ res.2.2.1,
                   res.2.2.2)
                | (.error e, evsD) =>
                  (.error e, ur.2.1, evs1 ++ ur.2.2 ++ evsD, none)
              else
                let res := trainLoopMS fuel ur.2.1 cur rem last
                (res.1, res.2.1, evs1 ++ ur.2.2 ++ res.2.2.1, res.2.2.2)
            | none =>
              let res := trainLoopMS fuel ur.2.1 cur rem last
              (res.1, res.2.1, evs1 ++ ur.2.2 ++ res.2.2.1, res.2.2.2)

/-- `train` in the scheduler-sequence mode (the branch taken when the
`scheduler` argument is an iterable of schedulers rather than a single
scheduler): refuse when parallel training is underway; set up parallel
training; pull the first scheduler; dispose one scheduler per node index
skipped for pretrained nodes (or, when training is already complete,
`len(flow) - 1` schedulers); run the main loop; and in the `finally` clause
shut down the scheduler active on exit. On a `StopIteration` from a disposal
the identity of the partially-rotated active scheduler is lost to the caller
(the source would attempt `shutdown` on it in `finally`); this only happens
on failing runs, about which no claim is settled. -/
def trainMS (fuel : Nat) (s : PFState) (its : List (Nat → List Chunk))
    (scheds : List (Option Nat)) : Except Err Unit × PFState × List Event :=
  if s.iTrainNode.isSome then (.error .parallelTrainingUnderway, s, [])
  else
    match setup_parallel_training fuel s its with
    | (.error e, s1, evs) => (.error e, s1, evs)
    | (.ok _, s1, evs0) =>
      match scheds with
      | [] => (.error .stopIteration, s1, evs0)
      | c0 :: rest0 =>
        let body : Except Err Unit × PFState × List Event × Option Nat :=
          match s1.iTrainNode with
          | some i0 =>
            if i0 > 0 then
              match disposeK i0 c0 rest0 with
              | (.ok (cur, rem), evsD) =>
                let res := trainLoopMS fuel s1 cur rem i0
                (res.1, res.2.1, evsD ++ res.2.2.1, res.2.2.2)
              | (.error e, evsD) => (.error e, s1, evsD, none)
            else
              trainLoopMS fuel s1 c0 rest0 i0
          | none =>
            match disposeK (s.flow.length - 1) c0 rest0 with
            | (.ok (cur, _), evsD) => (.ok (), s1, evsD, cur)
            | (.error e, evsD) => (.error e, s1, evsD, none)
        let evsFin : List Event :=
          match body.2.2.2 with
          | some id => [Event.shutdown id]
          | none => []
        (body.1, body.2.1,
         [Event.pullSched c0] ++ evs0 ++ body.2.2.1 ++ evsFin)

/-- The `execute` driver with a scheduler: refuse when parallel training is
underway; set up parallel execution; drain all tasks to the scheduler; feed
the results to `use_results` (the modelled pass-through scheduler returns
each task's data chunk, the node execute semantics being outside this core);
the `finally` clause resets the execution iterator reference. -/
def executeDriver (fuel : Nat) (s : PFState) (iterable : List Chunk)
    (sid : Nat) : Except Err Chunk × PFState × List Event :=
  if s.iTrainNode.isSome then (.error .parallelTrainingUnderway, s, [])
  else
    match setup_parallel_execution s iterable with
    | (.error e, s1) => (.error e, { s1 with execIter := none }, [])
    | (.ok _, s1) =>
      match drainTasks fuel s1 (some sid) with
      | .error e => (.error e, { s1 with execIter := none }, [])
      | .ok (s2, ts, evs) =>
        let ur := use_results fuel s2 (ts.map Prod.fst)
        match ur.1 with
        | .ok (some out) =>
          (.ok out, { ur.2.1 with execIter := none }, evs ++ ur.2.2)
        | .ok none =>
          (.error .indexError, { ur.2.1 with execIter := none }, evs ++ ur.2.2)
        | .error e =>
          (.error e, { ur.2.1 with execIter := none }, evs ++ ur.2.2)

/-- The coordinator states reachable through successful calls of the public
protocol, starting from a freshly constructed instance. -/
inductive Reachable : PFState → Prop where
  | init : ∀ flow checkpoints kwargs,
      Reachable (pfInit flow checkpoints kwargs)
  | setupTrain : ∀ s fuel its, Reachable s →
      (setup_parallel_training fuel s its).1 = .ok () →
      Reachable (setup_parallel_training fuel s its).2.1
  | setupExec : ∀ s iterable, Reachable s →
      (setup_parallel_execution s iterable).1 = .ok () →
      Reachable (setup_parallel_execution s iterable).2
  | getTask : ∀ s t, Reachable s →
      (get_task s).1 = .ok t →
      Reachable (get_task s).2
  | useResults : ∀ s fuel results v, Reachable s →
      (use_results fuel s results).1 = .ok v →
      Reachable (use_results fuel s results).2.1
  | trainMS : ∀ s fuel its scheds, Reachable s →
      (trainMS fuel s its scheds).1 = .ok () →
      Reachable (trainMS fuel s its scheds).2.1
  | executeDriver : ∀ s fuel iterable sid out, Reachable s →
      (executeDriver fuel s iterable sid).1 = .ok out →
      Reachable (executeDriver fuel s iterable sid).2.1

/-! ## Helper lemmas -/

/-- On fork success the advance procedure buffers a first task carrying a
fresh train callable, as long as it leaves training active. -/
theorem aux_first_task (fuel : Nat) :
    ∀ (s : PFState) (i : Nat),
      (nextTrainPhaseAux fuel s i).1 = .ok () →
      ((nextTrainPhaseAux fuel s i).2.1.iTrainNode).isSome = true →
      ∃ c : Chunk,
        (nextTrainPhaseAux fuel s i).2.1.nextTask = some (c, some .trainC) := by
  induction fuel with
  | zero =>
    intro s i hok _
    simp [nextTrainPhaseAux] at hok
  | succ fuel ih =>
    intro s i
    show (nextTrainPhaseAux (fuel + 1) s i).1 = .ok () → _ → _
    rw [nextTrainPhaseAux]
    cases hget : s.flow.get? i with
    | none =>
      intro _ hsome
      simp at hsome
    | some node =>
      dsimp only
      by_cases hrem : node.remaining = 0
      · rw [if_pos hrem]
        exact ih s (i + 1)
      · rw [if_neg hrem]
        by_cases hfork : node.forkable node.currentPhase = true

        · rw [if_pos hfork]
          cases hch : takeIter s.trainIterables node.currentPhase i with
          | nil =>
            intro hok
            simp at hok
          | cons c rest =>
            intro _ _
            exact ⟨c, rfl⟩
        · rw [if_neg hfork]
          cases hch : takeIter s.trainIterables node.currentPhase i with
          | nil =>
            intro hok
            simp at hok
          | cons c rest =>
            exact ih _ _

/-- The buffer refilled by `get_task` only ever holds a task without a
callable. -/
theorem get_task_refill (s : PFState) (t : Task) :
    (get_task s).1 = .ok t →
    ∀ t2 ∈ (get_task s).2.nextTask, t2.2 = none := by
  unfold get_task
  cases hnt : s.nextTask with
  | none =>
    intro hok
    simp at hok
  | some task =>
    cases hit : s.iTrainNode with
    | some j =>
      cases hiter : s.trainIter with
      | nil =>
        intro _ t2 ht2
        simp [createTrainTask] at ht2
      | cons c cs =>
        intro _ t2 ht2
        simp [createTrainTask] at ht2
        subst ht2
        rfl
    | none =>
      cases hex : s.execIter with
      | none =>
        intro hok
        simp at hok
      | some it =>
        cases hiter : it with
        | nil =>
          intro _ t2 ht2
          simp [createExecTask] at ht2
        | cons c cs =>
          intro _ t2 ht2
          simp [createExecTask] at ht2
          subst ht2
          rfl

/-! ## Claims -/

/-- C9: constructing a `ParallelFlow` always disables crash recovery — for
every caller-supplied keyword-argument set, including an explicit
`crash_recovery=True`, the constructor overwrites the flag to `False` before
delegating to the base `Flow` constructor, so no instance ever has crash
recovery enabled. -/
theorem c9_crash_recovery_always_disabled :
    ∀ (flow : List Node) (checkpoints : List (Option CheckFn))
      (kwargs : FlowKwargs),
      (pfInitKwargs kwargs).crash_recovery = false ∧
      (pfInit flow checkpoints kwargs).crashRecovery = false := by
  intro flow checkpoints kwargs
  exact ⟨rfl, rfl⟩

/-- C10: `get_task` is atomic on failure — whenever it raises, the lookahead
buffer and all other coordinator state are unchanged. -/
theorem c10_get_task_atomic_on_failure :
    ∀ (s : PFState) (e : Err),
      (get_task s).1 = .error e → (get_task s).2 = s := by
  intro s e herr
  unfold get_task at herr ⊢
  cases hnt : s.nextTask with
  | none => simp [hnt]
  | some task =>
    cases hit : s.iTrainNode with
    | some j => simp [hnt, hit] at herr
    | none =>
      cases hex : s.execIter with
      | some it => simp [hnt, hit, hex] at herr
      | none => simp [hnt, hit, hex]

/-- Witness for C10: in the state where a task is buffered but neither
parallel training nor parallel execution is active, `get_task` raises the
no-task error and the buffered task remains in the buffer. -/
theorem c10_get_task_atomic_on_failure_witness :
    (get_task ⟨[], [], [], [], [], none, none, some ([1], none), false⟩).1 =
      .error .noDataForTask ∧
    (get_task ⟨[], [], [], [], [], none, none, some ([1], none), false⟩).2 =
      ⟨[], [], [], [], [], none, none, some ([1], none), false⟩ :=
  ⟨rfl, c10_get_task_atomic_on_failure _ Err.noDataForTask rfl⟩

/-- C7: during active parallel execution (the `Executing` coordinator state,
in which parallel training is not underway), `use_results` returns the
concatenation of the supplied results in collection order and resets the
execution state to idle. -/
theorem c7_use_results_execution_concatenates :
    ∀ (fuel : Nat) (s : PFState) (results : List Chunk),
      is_parallel_executing s = true →
      is_parallel_training s = false →
      (use_results fuel s results).1 = .ok (some results.flatten) ∧
      is_parallel_executing (use_results fuel s results).2.1 = false := by
  intro fuel s results hex htr
  unfold is_parallel_executing at hex
  unfold is_parallel_training at htr
  cases hit : s.iTrainNode with
  | some j => simp [hit] at htr
  | none =>
    cases hexi : s.execIter with
    | none => simp [hexi] at hex
    | some it =>
      constructor
      · simp [use_results, hit, hexi]
      · simp [use_results, is_parallel_executing, hit, hexi]

/-- Witness for C7 at a concrete executing state. -/
theorem c7_use_results_execution_concatenates_witness :
    is_parallel_executing
      ⟨[], [], [], [], [], none, some [[2]], some ([1], some .execC), false⟩ = true ∧
    is_parallel_training
      ⟨[], [], [], [], [], none, some [[2]], some ([1], some .execC), false⟩ = false ∧
    (use_results 1
      ⟨[], [], [], [], [], none, some [[2]], some ([1], some .execC), false⟩
      [[3], [4]]).1 = .ok (some [3, 4]) :=
  ⟨rfl, rfl,
   (c7_use_results_execution_concatenates 1
     ⟨[], [], [], [], [], none, some [[2]], some ([1], some .execC), false⟩
     [[3], [4]] rfl rfl).1⟩

/-- Counterexample to C4 as stated: a state reachable through the public
protocol (set up parallel execution, then consume results while the first
task is still buffered) in which `task_available` is `true` and `get_task`
nevertheless raises the no-task error. -/
theorem c4_counterexample :
    Reachable (use_results 1
        ((setup_parallel_execution (pfInit [] [] ⟨false⟩) [[1], [2]]).2)
        [[3]]).2.1 ∧
    task_available (use_results 1
        ((setup_parallel_execution (pfInit [] [] ⟨false⟩) [[1], [2]]).2)
        [[3]]).2.1 = true ∧
    (get_task (use_results 1
        ((setup_parallel_execution (pfInit [] [] ⟨false⟩) [[1], [2]]).2)
        [[3]]).2.1).1 = .error .noDataForTask := by
  refine ⟨?_, rfl, rfl⟩
  exact Reachable.useResults _ 1 [[3]] (some [3])
    (Reachable.setupExec _ [[1], [2]] (Reachable.init [] [] ⟨false⟩) rfl) rfl

/-- C4 as amended: `get_task` raises exactly when the lookahead buffer is
empty or when neither parallel training nor parallel execution is active.
In particular `task_available = false` always means `get_task` raises the
no-task error, but `task_available = true` guarantees a task only while one
of the two parallel modes is active. -/
theorem c4_get_task_raise_characterization :
    ∀ s : PFState,
      (task_available s = false →
        (get_task s).1 = .error .noTaskAvailable) ∧
      (task_available s = true → is_parallel_training s = false →
        is_parallel_executing s = false →
        (get_task s).1 = .error .noDataForTask) ∧
      (task_available s = true →
        (is_parallel_training s = true ∨ is_parallel_executing s = true) →
        ∃ t, (get_task s).1 = .ok t) := by
  intro s
  refine ⟨?_, ?_, ?_⟩
  · intro hta
    unfold task_available at hta
    unfold get_task
    cases hnt : s.nextTask with
    | none => simp
    | some task => simp [hnt] at hta
  · intro hta htr hex
    unfold task_available at hta
    unfold is_parallel_training at htr
    unfold is_parallel_executing at hex
    unfold get_task
    cases hnt : s.nextTask with
    | none => simp [hnt] at hta
    | some task =>
      cases hit : s.iTrainNode with
      | some j => simp [hit] at htr
      | none =>
        cases hexi : s.execIter with
        | some it => simp [hexi] at hex
        | none => simp
  · intro hta hmode
    unfold task_available at hta
    unfold get_task
    cases hnt : s.nextTask with
    | none => simp [hnt] at hta
    | some task =>
      cases hit : s.iTrainNode with
      | some j => exact ⟨task, by simp⟩
      | none =>
        cases hexi : s.execIter with
        | some it => exact ⟨task, by simp⟩
        | none =>
          unfold is_parallel_training is_parallel_executing at hmode
          simp [hit, hexi] at hmode

/-- Witness for the amended C4, at three concrete states: an empty buffer, a
buffered task with both modes idle, and a buffered task during training. -/
theorem c4_get_task_raise_characterization_witness :
    (get_task ⟨[], [], [], [], [], none, none, none, false⟩).1 =
      .error .noTaskAvailable ∧
    (get_task ⟨[], [], [], [], [], none, none, some ([2], none), false⟩).1 =
      .error .noDataForTask ∧
    ∃ t, (get_task
      ⟨[], [], [], [], [[3]], some 0, none, some ([2], none), false⟩).1 =
        .ok t :=
  ⟨(c4_get_task_raise_characterization _).1 rfl,
   (c4_get_task_raise_characterization _).2.1 rfl rfl rfl,
   (c4_get_task_raise_characterization _).2.2 rfl (Or.inl rfl)⟩

/-- Counterexample to C3 as stated: in a state where parallel execution is
active (reached by a successful `setup_parallel_execution`), an attempt to
start training via `setup_parallel_training` succeeds instead of raising. -/
theorem c3_counterexample :
    is_parallel_executing
      ((setup_parallel_execution
        (pfInit [⟨1, 0, fun _ => true⟩] [none] ⟨false⟩) [[5], [6]]).2) = true ∧
    (setup_parallel_training 2
      ((setup_parallel_execution
        (pfInit [⟨1, 0, fun _ => true⟩] [none] ⟨false⟩) [[5], [6]]).2)
      [fun _ => [[1]]]).1 = .ok () :=
  ⟨rfl, rfl⟩

/-- C3 as amended: training and execution exclusion is enforced in one
direction only. While parallel training is active, starting execution
(`execute` or `setup_parallel_execution`) raises and changes no state; and
the training entry points (`train`, `setup_parallel_training`) raise, with no
state change, exactly because parallel training is already underway — they
do not check for active parallel execution, so execution does not block
them. -/
theorem c3_training_blocks_other_starts :
    ∀ (s : PFState) (fuel sid : Nat) (its : List (Nat → List Chunk))
      (scheds : List (Option Nat)) (iterable : List Chunk),
      is_parallel_training s = true →
      setup_parallel_execution s iterable =
        (.error .parallelTrainingUnderway, s) ∧
      executeDriver fuel s iterable sid =
        (.error .parallelTrainingUnderway, s, []) ∧
      setup_parallel_training fuel s its =
        (.error .parallelTrainingUnderway, s, []) ∧
      trainMS fuel s its scheds =
        (.error .parallelTrainingUnderway, s, []) := by
  intro s fuel sid its scheds iterable htr
  unfold is_parallel_training at htr
  refine ⟨?_, ?_, ?_, ?_⟩
  · unfold setup_parallel_execution
    simp [htr]
  · unfold executeDriver
    simp [htr]
  · unfold setup_parallel_training
    simp [htr]
  · unfold trainMS
    simp [htr]

/-- Witness for the amended C3 at a concrete training-active state. -/
theorem c3_training_blocks_other_starts_witness :
    is_parallel_training
      ⟨[], [], [], [], [], some 0, none, none, false⟩ = true ∧
    setup_parallel_execution
      ⟨[], [], [], [], [], some 0, none, none, false⟩ [[1]] =
      (.error .parallelTrainingUnderway,
       ⟨[], [], [], [], [], some 0, none, none, false⟩) ∧
    (trainMS 3 ⟨[], [], [], [], [], some 0, none, none, false⟩ [] []).1 =
      .error .parallelTrainingUnderway :=
  ⟨rfl,
   (c3_training_blocks_other_starts
     ⟨[], [], [], [], [], some 0, none, none, false⟩ 3 0 [] [] [[1]] rfl).1,
   by rw [(c3_training_blocks_other_starts
     ⟨[], [], [], [], [], some 0, none, none, false⟩ 3 0 [] [] [[1]] rfl).2.2.2]⟩

/-- C5: for every parallel phase, training or execution, the first task
handed out carries a concrete callable, and every task the buffer is
refilled with afterwards carries `None`. -/
theorem c5_first_task_has_callable :
    ∀ (fuel : Nat) (s : PFState) (i : Nat) (iterable : List Chunk) (t : Task),
      ((nextTrainPhaseAux fuel s i).1 = .ok () →
        ((nextTrainPhaseAux fuel s i).2.1.iTrainNode).isSome = true →
        ∃ c : Chunk,
          (nextTrainPhaseAux fuel s i).2.1.nextTask =
            some (c, some .trainC)) ∧
      ((setup_parallel_execution s iterable).1 = .ok () →
        ∃ c : Chunk,
          (setup_parallel_execution s iterable).2.nextTask =
            some (c, some .execC)) ∧
      ((get_task s).1 = .ok t →
        ∀ t2 ∈ (get_task s).2.nextTask, t2.2 = none) := by
  intro fuel s i iterable t
  refine ⟨aux_first_task fuel s i, ?_, get_task_refill s t⟩
  intro hok
  unfold setup_parallel_execution at hok ⊢
  cases hit : s.iTrainNode with
  | some j => simp [hit] at hok
  | none =>
    cases hiter : iterable with
    | nil => simp [hit, hiter] at hok
    | cons c rest => exact ⟨c, by simp [hit, hiter]⟩

/-- Witness for C5: a concrete training-phase setup, a concrete execution
setup, and a concrete `get_task` refill. -/
theorem c5_first_task_has_callable_witness :
    (∃ c : Chunk,
      (nextTrainPhaseAux 2
        ⟨[⟨1, 0, fun _ => true⟩], [none], [], [fun _ => [[1], [2]]],
         [], some 0, none, none, false⟩ 0).2.1.nextTask =
        some (c, some .trainC)) ∧
    (∃ c : Chunk,
      (setup_parallel_execution
        ⟨[], [], [], [], [], none, none, none, false⟩ [[9]]).2.nextTask =
        some (c, some .execC)) ∧
    (∀ t2 ∈ (get_task
        ⟨[], [], [], [], [[3]], some 0, none, some ([2], none), false⟩).2.nextTask,
      t2.2 = none) :=
  ⟨(c5_first_task_has_callable 2 _ 0 [] ([], none)).1 rfl rfl,
   (c5_first_task_has_callable 2
     ⟨[], [], [], [], [], none, none, none, false⟩ 0 [[9]] ([], none)).2.1 rfl,
   (c5_first_task_has_callable 2 _ 0 [] ([2], none)).2.2 rfl⟩

/-- Counterexample to C2 as stated: a 3-phase node whose data source is
exhausted on the third training phase. The claim demands the replay
diagnostic for any phase after the first, but the run fails with the plain
empty-iterator diagnostic; the node's current train phase at detection is
`2`, i.e. the failing setup is that of a later-than-second phase. -/
theorem c2_counterexample :
    ((use_results 9
        (use_results 9
          (setup_parallel_training 9
            (pfInit [⟨3, 0, fun _ => true⟩] [none] ⟨false⟩)
            [fun p => if p ≤ 1 then [[1]] else []]).2.1
          [[7]]).2.1
        [[8]]).1 = .error (.iteratorEmpty 1)) ∧
    (((use_results 9
        (use_results 9
          (setup_parallel_training 9
            (pfInit [⟨3, 0, fun _ => true⟩] [none] ⟨false⟩)
            [fun p => if p ≤ 1 then [[1]] else []]).2.1
          [[7]]).2.1
        [[8]]).2.1.flow.getD 0 default).currentPhase = 2) := by
  exact ⟨rfl, rfl⟩

/-- C2 as amended: when the data source of a training phase yields no chunk,
the phase setup fails with the replay diagnostic exactly if the node's
current train phase is `1` (the second phase), and with the plain
empty-iterator diagnostic on the first phase and on every phase after the
second; this holds on both the parallel and the local-fallback path (both
paths of the advance procedure report through the same phase test). -/
theorem c2_empty_source_error_selection :
    ∀ (fuel : Nat) (s : PFState) (i : Nat) (node : Node),
      s.flow.get? i = some node →
      node.remaining ≠ 0 →
      takeIter s.trainIterables node.currentPhase i = [] →
      (nextTrainPhaseAux (fuel + 1) s i).1 =
        .error (if node.currentPhase = 1 then .iteratorNotRepeatable (i + 1)
                else .iteratorEmpty (i + 1)) := by
  intro fuel s i node hget hrem hempty
  rw [nextTrainPhaseAux]
  simp only [hget, hrem, if_false]
  by_cases hfork : node.forkable node.currentPhase = true
  · rw [hfork]
    simp only [if_true]
    rw [hempty]
    simp [emptyErr]
  · simp only [hfork, if_false]
    rw [hempty]
    simp [emptyErr]

/-- Witness for the amended C2: a 2-phase node with a one-shot iterator —
the second-phase setup fails with the replay diagnostic. -/
theorem c2_empty_source_error_selection_witness :
    ((⟨[⟨1, 1, fun _ => true⟩], [none], [], [fun p => if p = 0 then [[1]] else []],
       [], some 0, none, none, false⟩ : PFState).flow.get? 0 =
      some ⟨1, 1, fun _ => true⟩) ∧
    (nextTrainPhaseAux 3
      ⟨[⟨1, 1, fun _ => true⟩], [none], [], [fun p => if p = 0 then [[1]] else []],
       [], some 0, none, none, false⟩ 0).1 =
      .error (.iteratorNotRepeatable 1) := by
  refine ⟨rfl, ?_⟩
  have h := c2_empty_source_error_selection 2
    ⟨[⟨1, 1, fun _ => true⟩], [none], [], [fun p => if p = 0 then [[1]] else []],
     [], some 0, none, none, false⟩ 0 ⟨1, 1, fun _ => true⟩ rfl
    (by decide) rfl
  simpa using h

/-- After a successful run of the advance procedure, either a task is
buffered or training has reached the terminal state. -/
theorem aux_ok_buffer_or_done (fuel : Nat) :
    ∀ (s : PFState) (i : Nat),
      (nextTrainPhaseAux fuel s i).1 = .ok () →
      (nextTrainPhaseAux fuel s i).2.1.nextTask.isSome = true ∨
      (nextTrainPhaseAux fuel s i).2.1.iTrainNode = none := by
  induction fuel with
  | zero =>
    intro s i hok
    simp [nextTrainPhaseAux] at hok
  | succ fuel ih =>
    intro s i
    show (nextTrainPhaseAux (fuel + 1) s i).1 = .ok () → _
    rw [nextTrainPhaseAux]
    cases hget : s.flow.get? i with
    | none =>
      intro _
      exact Or.inr rfl
    | some node =>
      dsimp only
      by_cases hrem : node.remaining = 0
      · rw [if_pos hrem]
        exact ih s (i + 1)
      · rw [if_neg hrem]
        by_cases hfork : node.forkable node.currentPhase = true
        · rw [if_pos hfork]
          cases hch : takeIter s.trainIterables node.currentPhase i with
          | nil =>
            intro hok
            simp at hok
          | cons c rest =>
            intro _
            exact Or.inl rfl
        · rw [if_neg hfork]
          cases hch : takeIter s.trainIterables node.currentPhase i with
          | nil =>
            intro hok
            simp at hok
          | cons c rest =>
            exact ih _ _

/-- C1: during an active parallel training phase at node index `i`,
`use_results` joins each result, in iteration order, into the live node
`flow[i]`, then calls `stop_training` on that node exactly once, then runs
the checkpoint hook point (all before the advance-to-next-trainable
procedure contributes its own events); the node index handed to the re-run
advance procedure is incremented if and only if the node is no longer
training; and when the call returns normally, either a next first task is
buffered or the training state is terminal. -/
theorem c1_use_results_training_phase :
    ∀ (fuel : Nat) (s : PFState) (i : Nat) (node : Node)
      (results : List Chunk),
      s.iTrainNode = some i →
      s.flow.get? i = some node →
      ((use_results fuel s results).2.2 =
        results.map (Event.join i) ++ [Event.stopT i, Event.hookPoint i] ++
        (postStopHook { s with flow := s.flow.set i (stopNode node) } i).2 ++
        (nextTrainPhaseAux fuel
          (postStopHook { s with flow := s.flow.set i (stopNode node) } i).1
          (if (stopNode node).remaining = 0 then i + 1 else i)).2.2) ∧
      ((stopNode node).isTraining = false ↔
        (if (stopNode node).remaining = 0 then i + 1 else i) = i + 1) ∧
      (∀ v, (use_results fuel s results).1 = .ok v →
        task_available (use_results fuel s results).2.1 = true ∨
        (use_results fuel s results).2.1.iTrainNode = none) := by
  intro fuel s i node results hi hget
  obtain ⟨fl, cps, att, tit, tir, itn, exi, nxt, cr⟩ := s
  simp only at hi hget
  subst hi
  refine ⟨?_, ?_, ?_⟩
  · simp only [use_results, hget]
  · unfold Node.isTraining
    by_cases h0 : (stopNode node).remaining = 0
    · simp [h0]
    · simp [h0]
  · intro v hok
    simp only [use_results, hget] at hok ⊢
    have hok2 : (nextTrainPhaseAux fuel
        (postStopHook
          { flow := fl.set i (stopNode node), checkpoints := cps, attrs := att,
            trainIterables := tit, trainIter := tir, iTrainNode := some i,
            execIter := exi, nextTask := nxt, crashRecovery := cr } i).1
        (if (stopNode node).remaining = 0 then i + 1 else i)).1 = .ok () := by
      cases hr : (nextTrainPhaseAux fuel
          (postStopHook
            { flow := fl.set i (stopNode node), checkpoints := cps, attrs := att,
              trainIterables := tit, trainIter := tir, iTrainNode := some i,
              execIter := exi, nextTask := nxt, crashRecovery := cr } i).1
          (if (stopNode node).remaining = 0 then i + 1 else i)).1 with
      | error e =>
        rw [hr] at hok
        simp [Except.map] at hok
      | ok u => rfl
    have hres := aux_ok_buffer_or_done fuel
      (postStopHook
        { flow := fl.set i (stopNode node), checkpoints := cps, attrs := att,
          trainIterables := tit, trainIter := tir, iTrainNode := some i,
          execIter := exi, nextTask := nxt, crashRecovery := cr } i).1
      (if (stopNode node).remaining = 0 then i + 1 else i) hok2
    simpa only [task_available] using hres

/-- Witness for C1: a 2-phase forkable node mid-phase; after `use_results`
the next phase's first task is buffered. -/
theorem c1_use_results_training_phase_witness :
    ((⟨[⟨2, 0, fun _ => true⟩], [none], [], [fun _ => [[1]]],
       [], some 0, none, some ([1], some .trainC), false⟩ : PFState).iTrainNode
      = some 0) ∧
    ((use_results 3
      ⟨[⟨2, 0, fun _ => true⟩], [none], [], [fun _ => [[1]]],
       [], some 0, none, some ([1], some .trainC), false⟩ [[9]]).1 = .ok none) ∧
    (task_available (use_results 3
      ⟨[⟨2, 0, fun _ => true⟩], [none], [], [fun _ => [[1]]],
       [], some 0, none, some ([1], some .trainC), false⟩ [[9]]).2.1 = true ∨
     (use_results 3
      ⟨[⟨2, 0, fun _ => true⟩], [none], [], [fun _ => [[1]]],
       [], some 0, none, some ([1], some .trainC), false⟩ [[9]]).2.1.iTrainNode
      = none) :=
  ⟨rfl, rfl,
   (c1_use_results_training_phase 3
     ⟨[⟨2, 0, fun _ => true⟩], [none], [], [fun _ => [[1]]],
      [], some 0, none, some ([1], some .trainC), false⟩ 0
     ⟨2, 0, fun _ => true⟩ [[9]] rfl rfl).2.2 none rfl⟩

/-! ## Checkpoint accounting machinery -/

/-- Remaining training phases of the node at index `j` (zero past the end of
the flow). -/
def remAt (s : PFState) (j : Nat) : Nat :=
  (s.flow.getD j default).remaining

/-- Whether a checkpoint function is registered for node index `j`. -/
def registered (s : PFState) (j : Nat) : Bool :=
  (s.checkpoints.getD j none).isSome

/-- Number of checkpoint invocations recorded for node index `j`. -/
def cpCount (tr : List Event) (j : Nat) : Nat :=
  tr.countP (fun e =>
    match e with
    | .checkpoint k _ => k == j
    | _ => false)

/-- The invariant of the training state machine between public calls: when a
node index is current, the node there is still training and every node before
it is fully trained; in the terminal state every node is fully trained. -/
def TrainInv (s : PFState) : Prop :=
  (∀ i, s.iTrainNode = some i →
    (∃ node, s.flow.get? i = some node ∧ node.remaining ≠ 0) ∧
    ∀ k, k < i → remAt s k = 0) ∧
  (s.iTrainNode = none → ∀ k, remAt s k = 0)

theorem getD_get? {α : Type} (l : List α) (i : Nat) (d : α) :
    l.getD i d = (l.get? i).getD d := by
  rw [List.getD_eq_getElem?_getD, List.get?_eq_getElem?]

theorem getD_set_self {α : Type} (l : List α) (i : Nat) (x d : α)
    (h : i < l.length) : (l.set i x).getD i d = x := by
  rw [List.getD_eq_getElem?_getD, List.getElem?_set_self (by omega)]
  simp

theorem getD_set_ne {α : Type} (l : List α) (i j : Nat) (x d : α)
    (h : i ≠ j) : (l.set i x).getD j d = l.getD j d := by
  rw [List.getD_eq_getElem?_getD, List.getElem?_set_ne h,
    ← List.getD_eq_getElem?_getD]

theorem getD_of_get?_none {α : Type} (l : List α) (i : Nat) (d : α)
    (h : l.get? i = none) : l.getD i d = d := by
  rw [List.getD_eq_getElem?_getD, ← List.get?_eq_getElem?, h]
  rfl

theorem cpCount_append (tr1 tr2 : List Event) (j : Nat) :
    cpCount (tr1 ++ tr2) j = cpCount tr1 j + cpCount tr2 j := by
  unfold cpCount
  exact List.countP_append _ _ _

/-- The crossing-count addition law: counting a 0-crossing of a monotone
quantity over two composed segments. -/
theorem crossing_add (a b c : Nat) (reg : Bool) (hba : b ≤ a) (hcb : c ≤ b) :
    ((if a ≠ 0 ∧ b = 0 ∧ reg = true then 1 else 0) +
      (if b ≠ 0 ∧ c = 0 ∧ reg = true then 1 else 0)) =
    (if a ≠ 0 ∧ c = 0 ∧ reg = true then 1 else 0) := by
  by_cases hreg : reg = true
  · by_cases ha : a = 0
    · have hb : b = 0 := by omega
      have hc : c = 0 := by omega
      simp [ha, hb, hc]
    · by_cases hb : b = 0
      · have hc : c = 0 := by omega
        simp [ha, hb, hc, hreg]
      · by_cases hc : c = 0
        · simp [ha, hb, hc, hreg]
        · simp [ha, hb, hc]
  · simp [hreg]

/-- The post-stop-training hook only changes the attribute map. -/
theorem psh_state (s : PFState) (i : Nat) :
    ∃ a, (postStopHook s i).1 = { s with attrs := a } := by
  unfold postStopHook
  cases s.flow.get? i with
  | none => exact ⟨s.attrs, rfl⟩
  | some node =>
    dsimp only
    by_cases hrem : node.remaining = 0
    · rw [if_pos hrem]
      cases s.checkpoints.getD i none with
      | none => exact ⟨s.attrs, rfl⟩
      | some f =>
        dsimp only
        by_cases hd : f node = []
        · rw [if_pos hd]
          exact ⟨s.attrs, rfl⟩
        · rw [if_neg hd]
          exact ⟨updateAttrs s.attrs (f node), rfl⟩
    · rw [if_neg hrem]
      exact ⟨s.attrs, rfl⟩

theorem psh_flow (s : PFState) (i : Nat) :
    (postStopHook s i).1.flow = s.flow := by
  obtain ⟨a, ha⟩ := psh_state s i
  rw [ha]

theorem psh_checkpoints (s : PFState) (i : Nat) :
    (postStopHook s i).1.checkpoints = s.checkpoints := by
  obtain ⟨a, ha⟩ := psh_state s i
  rw [ha]

theorem remAt_psh (s : PFState) (i j : Nat) :
    remAt (postStopHook s i).1 j = remAt s j := by
  unfold remAt
  rw [psh_flow]

theorem registered_psh (s : PFState) (i j : Nat) :
    registered (postStopHook s i).1 j = registered s j := by
  unfold registered
  rw [psh_checkpoints]

/-- The events of the post-stop-training hook: the checkpoint of node `i`
fires exactly when the node there has no remaining phase and a checkpoint
function is registered, and always records a remaining count of zero. -/
theorem psh_events (s : PFState) (i : Nat) (node : Node)
    (hget : s.flow.get? i = some node) :
    (postStopHook s i).2 =
      if node.remaining = 0 ∧ registered s i = true then
        [Event.checkpoint i 0] else [] := by
  unfold postStopHook registered
  rw [hget]
  dsimp only
  by_cases hrem : node.remaining = 0
  · rw [if_pos hrem]
    cases hcp : s.checkpoints.getD i none with
    | none => simp [hrem, hcp]
    | some f =>
      dsimp only
      by_cases hd : f node = []
      · rw [if_pos hd]
        simp [hrem, hcp]
      · rw [if_neg hd]
        simp [hrem, hcp]
  · rw [if_neg hrem]
    simp [hrem]

theorem psh_events_none (s : PFState) (i : Nat)
    (hget : s.flow.get? i = none) :
    (postStopHook s i).2 = [] := by
  unfold postStopHook
  rw [hget]

theorem lt_of_get?_some {α : Type} {l : List α} {i : Nat} {x : α}
    (h : l.get? i = some x) : i < l.length := by
  by_contra hc
  rw [List.get?_eq_none.mpr (by omega)] at h
  cases h

theorem remAt_of_get? {s : PFState} {i : Nat} {node : Node}
    (hget : s.flow.get? i = some node) : remAt s i = node.remaining := by
  unfold remAt
  rw [getD_get?, hget]
  rfl

theorem remAt_set_self {s : PFState} {i : Nat} {x node : Node}
    (hget : s.flow.get? i = some node) :
    remAt { s with flow := s.flow.set i x } i = x.remaining := by
  unfold remAt
  dsimp only
  rw [getD_set_self _ _ _ _ (lt_of_get?_some hget)]

theorem remAt_set_ne (s : PFState) (i j : Nat) (x : Node) (h : i ≠ j) :
    remAt { s with flow := s.flow.set i x } j = remAt s j := by
  unfold remAt
  dsimp only
  rw [getD_set_ne _ _ _ _ _ h]

theorem remAt_of_get?_none {s : PFState} {k : Nat}
    (h : s.flow.get? k = none) : remAt s k = 0 := by
  unfold remAt
  rw [getD_of_get?_none _ _ _ h]
  rfl

/-- The advance procedure never touches the checkpoint list. -/
theorem aux_checkpoints (fuel : Nat) :
    ∀ (s : PFState) (i : Nat),
      (nextTrainPhaseAux fuel s i).2.1.checkpoints = s.checkpoints := by
  induction fuel with
  | zero => intro s i; rfl
  | succ fuel ih =>
    intro s i
    rw [nextTrainPhaseAux]
    cases hget : s.flow.get? i with
    | none => rfl
    | some node =>
      dsimp only
      by_cases hrem : node.remaining = 0
      · rw [if_pos hrem]
        exact ih s (i + 1)
      · rw [if_neg hrem]
        by_cases hfork : node.forkable node.currentPhase = true
        · rw [if_pos hfork]
          cases takeIter s.trainIterables node.currentPhase i with
          | nil => rfl
          | cons c rest => rfl
        · rw [if_neg hfork]
          cases takeIter s.trainIterables node.currentPhase i with
          | nil => rfl
          | cons c rest =>
            dsimp only
            rw [ih, psh_checkpoints]

/-- The registered-checkpoint map is unchanged by the advance procedure. -/
theorem aux_registered (fuel : Nat) (s : PFState) (i j : Nat) :
    registered (nextTrainPhaseAux fuel s i).2.1 j = registered s j := by
  unfold registered
  rw [aux_checkpoints]

/-- A node's remaining-phase count never increases during the advance
procedure. -/
theorem aux_rem_mono (fuel : Nat) :
    ∀ (s : PFState) (i j : Nat),
      remAt (nextTrainPhaseAux fuel s i).2.1 j ≤ remAt s j := by
  induction fuel with
  | zero => intro s i j; exact Nat.le_refl _
  | succ fuel ih =>
    intro s i j
    rw [nextTrainPhaseAux]
    cases hget : s.flow.get? i with
    | none => exact Nat.le_refl _
    | some node =>
      dsimp only
      by_cases hrem : node.remaining = 0
      · rw [if_pos hrem]
        exact ih s (i + 1) j
      · rw [if_neg hrem]
        by_cases hfork : node.forkable node.currentPhase = true
        · rw [if_pos hfork]
          cases takeIter s.trainIterables node.currentPhase i with
          | nil => exact Nat.le_refl _
          | cons c rest => exact Nat.le_refl _
        · rw [if_neg hfork]
          cases takeIter s.trainIterables node.currentPhase i with
          | nil => exact Nat.le_refl _
          | cons c rest =>
            dsimp only
            have h1 := ih (postStopHook
              { s with flow := s.flow.set i (stopNode node) } i).1
              (if (stopNode node).remaining = 0 then i + 1 else i) j
            rw [remAt_psh] at h1
            refine Nat.le_trans h1 ?_
            by_cases hij : i = j
            · subst hij
              rw [remAt_set_self hget, remAt_of_get? hget]
              unfold stopNode
              dsimp only
              omega
            · rw [remAt_set_ne _ _ _ _ hij]

/-- The advance procedure only ever moves the node index forward. -/
theorem aux_index_mono (fuel : Nat) :
    ∀ (s : PFState) (i j : Nat),
      (nextTrainPhaseAux fuel s i).2.1.iTrainNode = some j → i ≤ j := by
  induction fuel with
  | zero =>
    intro s i j h
    simp only [nextTrainPhaseAux] at h
    cases h
    exact Nat.le_refl _
  | succ fuel ih =>
    intro s i j
    rw [nextTrainPhaseAux]
    cases hget : s.flow.get? i with
    | none =>
      intro h
      cases h
    | some node =>
      dsimp only
      by_cases hrem : node.remaining = 0
      · rw [if_pos hrem]
        intro h
        exact Nat.le_trans (Nat.le_succ i) (ih s (i + 1) j h)
      · rw [if_neg hrem]
        by_cases hfork : node.forkable node.currentPhase = true
        · rw [if_pos hfork]
          cases takeIter s.trainIterables node.currentPhase i with
          | nil =>
            intro h
            cases h
            exact Nat.le_refl _
          | cons c rest =>
            intro h
            cases h
            exact Nat.le_refl _
        · rw [if_neg hfork]
          cases takeIter s.trainIterables node.currentPhase i with
          | nil =>
            intro h
            cases h
            exact Nat.le_refl _
          | cons c rest =>
            dsimp only
            intro h
            have h2 := ih _ _ _ h
            by_cases h0 : (stopNode node).remaining = 0
            · rw [if_pos h0] at h2
              omega
            · rw [if_neg h0] at h2
              exact h2

/-- After a successful run of the advance procedure, the training-state
invariant holds: a current node is still training with everything before it
fully trained, and the terminal state has every node fully trained. -/
theorem aux_inv_full (fuel : Nat) :
    ∀ (s : PFState) (i : Nat),
      (∀ k, k < i → remAt s k = 0) →
      (nextTrainPhaseAux fuel s i).1 = .ok () →
      TrainInv (nextTrainPhaseAux fuel s i).2.1 := by
  induction fuel with
  | zero =>
    intro s i _ hok
    simp [nextTrainPhaseAux] at hok
  | succ fuel ih =>
    intro s i hbelow
    rw [nextTrainPhaseAux]
    cases hget : s.flow.get? i with
    | none =>
      intro _
      constructor
      · intro i2 hi2
        exact absurd hi2 (by simp)
      · intro _ k
        by_cases hk : k < i
        · exact hbelow k hk
        · have hn : s.flow.get? k = none := by
            rw [List.get?_eq_none] at hget ⊢
            omega
          exact remAt_of_get?_none hn
    | some node =>
      dsimp only
      by_cases hrem : node.remaining = 0
      · rw [if_pos hrem]
        refine ih s (i + 1) ?_
        intro k hk
        by_cases hki : k < i
        · exact hbelow k hki
        · have hki2 : k = i := by omega
          subst hki2
          rw [remAt_of_get? hget]
          exact hrem
      · rw [if_neg hrem]
        by_cases hfork : node.forkable node.currentPhase = true
        · rw [if_pos hfork]
          cases takeIter s.trainIterables node.currentPhase i with
          | nil =>
            intro hok
            simp at hok
          | cons c rest =>
            intro _
            constructor
            · intro i2 hi2
              have hii : i = i2 := by simpa using hi2
              subst hii
              exact ⟨⟨node, hget, hrem⟩, fun k hk => hbelow k hk⟩
            · intro hnone
              exact absurd hnone (by simp)
        · rw [if_neg hfork]
          cases takeIter s.trainIterables node.currentPhase i with
          | nil =>
            intro hok
            simp at hok
          | cons c rest =>
            dsimp only
            intro hok
            refine ih _ _ ?_ hok
            intro k hk
            rw [remAt_psh]
            by_cases h0 : (stopNode node).remaining = 0
            · rw [if_pos h0] at hk
              by_cases hki : k = i
              · subst hki
                rw [remAt_set_self hget]
                exact h0
              · rw [remAt_set_ne _ _ _ _ (fun he => hki he.symm)]
                exact hbelow k (by omega)
            · rw [if_neg h0] at hk
              rw [remAt_set_ne _ _ _ _ (fun he => by omega)]
              exact hbelow k hk

/-- Every checkpoint event of the advance procedure records a node with zero
remaining phases. -/
theorem aux_cp_zero (fuel : Nat) :
    ∀ (s : PFState) (i j r : Nat),
      Event.checkpoint j r ∈ (nextTrainPhaseAux fuel s i).2.2 → r = 0 := by
  induction fuel with
  | zero =>
    intro s i j r h
    simp [nextTrainPhaseAux] at h
  | succ fuel ih =>
    intro s i j r
    rw [nextTrainPhaseAux]
    cases hget : s.flow.get? i with
    | none =>
      intro h
      simp at h
    | some node =>
      dsimp only
      by_cases hrem : node.remaining = 0
      · rw [if_pos hrem]
        exact ih s (i + 1) j r
      · rw [if_neg hrem]
        by_cases hfork : node.forkable node.currentPhase = true
        · rw [if_pos hfork]
          cases takeIter s.trainIterables node.currentPhase i with
          | nil =>
            intro h
            simp at h
          | cons c rest =>
            intro h
            simp at h
        · rw [if_neg hfork]
          cases takeIter s.trainIterables node.currentPhase i with
          | nil =>
            intro h
            simp at h
          | cons c rest =>
            dsimp only
            intro h
            rw [List.mem_append] at h
            rcases h with h | h
            · rw [List.mem_append] at h
              rcases h with h | h
              · rw [List.mem_append] at h
                rcases h with h | h
                · simp at h
                · simp at h
              · have hs1get : ({ s with flow := s.flow.set i (stopNode node) }
                    : PFState).flow.get? i = some (stopNode node) := by
                  dsimp only
                  exact List.get?_set_eq_of_lt _ (lt_of_get?_some hget)
                rw [psh_events _ _ _ hs1get] at h
                by_cases hc : (stopNode node).remaining = 0 ∧
                    registered { s with flow := s.flow.set i (stopNode node) }
                      i = true
                · rw [if_pos hc] at h
                  simp at h
                  omega
                · rw [if_neg hc] at h
                  simp at h
            · exact ih _ _ _ _ h

theorem cpCount_single (i j r : Nat) :
    cpCount [Event.checkpoint i r] j = if i = j then 1 else 0 := by
  by_cases hij : i = j
  · simp [cpCount, List.countP_cons, hij]
  · simp [cpCount, List.countP_cons, hij]

theorem cpCount_localTrain (i j : Nat) (l : List Chunk) :
    cpCount (l.map (Event.localTrain i)) j = 0 := by
  unfold cpCount
  rw [List.countP_eq_zero]
  intro e he
  rw [List.mem_map] at he
  obtain ⟨d, _, hd⟩ := he
  subst hd
  simp

theorem cpCount_stop_hook (i j : Nat) :
    cpCount [Event.stopT i, Event.hookPoint i] j = 0 := rfl

/-- Checkpoint accounting for the advance procedure: the checkpoint of node
`j` fires exactly once when node `j` crosses from training to fully trained
during the call and a checkpoint function is registered for it, and zero
times otherwise. -/
theorem aux_cp_count (fuel : Nat) :
    ∀ (s : PFState) (i j : Nat),
      cpCount (nextTrainPhaseAux fuel s i).2.2 j =
        if remAt s j ≠ 0 ∧ remAt (nextTrainPhaseAux fuel s i).2.1 j = 0 ∧
            registered s j = true then 1 else 0 := by
  induction fuel with
  | zero =>
    intro s i j
    show cpCount [] j = _
    rw [if_neg]
    · rfl
    · rintro ⟨h1, h2, _⟩
      exact h1 h2
  | succ fuel ih =>
    intro s i j
    rw [nextTrainPhaseAux]
    cases hget : s.flow.get? i with
    | none =>
      show cpCount [] j = _
      rw [if_neg]
      · rfl
      · rintro ⟨h1, h2, _⟩
        exact h1 h2
    | some node =>
      dsimp only
      by_cases hrem : node.remaining = 0
      · rw [if_pos hrem]
        exact ih s (i + 1) j
      · rw [if_neg hrem]
        by_cases hfork : node.forkable node.currentPhase = true
        · rw [if_pos hfork]
          cases takeIter s.trainIterables node.currentPhase i with
          | nil =>
            show cpCount [] j = _
            rw [if_neg]
            · rfl
            · rintro ⟨h1, h2, _⟩
              exact h1 h2
          | cons c rest =>
            show cpCount [] j = _
            rw [if_neg]
            · rfl
            · rintro ⟨h1, h2, _⟩
              exact h1 h2
        · rw [if_neg hfork]
          cases takeIter s.trainIterables node.currentPhase i with
          | nil =>
            show cpCount [] j = _
            rw [if_neg]
            · rfl
            · rintro ⟨h1, h2, _⟩
              exact h1 h2
          | cons c rest =>
            dsimp only
            rw [cpCount_append, cpCount_append, cpCount_append]
            rw [cpCount_localTrain, cpCount_stop_hook]
            have hs1get : ({ s with flow := s.flow.set i (stopNode node) }
                : PFState).flow.get? i = some (stopNode node) := by
              dsimp only
              exact List.get?_set_eq_of_lt _ (lt_of_get?_some hget)
            rw [psh_events _ _ _ hs1get]
            have hr1 := ih (postStopHook
              { s with flow := s.flow.set i (stopNode node) } i).1
              (if (stopNode node).remaining = 0 then i + 1 else i) j
            rw [hr1, remAt_psh, registered_psh]
            have hregs1 : registered
                { s with flow := s.flow.set i (stopNode node) } j =
                registered s j := rfl
            have hregs1i : registered
                { s with flow := s.flow.set i (stopNode node) } i =
                registered s i := rfl
            rw [hregs1, hregs1i]
            have hmono := aux_rem_mono fuel (postStopHook
              { s with flow := s.flow.set i (stopNode node) } i).1
              (if (stopNode node).remaining = 0 then i + 1 else i) j
            rw [remAt_psh] at hmono
            by_cases hij : i = j
            · subst hij
              rw [remAt_set_self hget] at hmono ⊢
              rw [remAt_of_get? hget]
              by_cases hreg : registered s i = true
              · by_cases hb : (stopNode node).remaining = 0
                · rw [if_pos ⟨hb, hreg⟩]
                  rw [cpCount_single]
                  rw [if_pos rfl]
                  have hc0 : remAt (nextTrainPhaseAux fuel (postStopHook
                      { s with flow := s.flow.set i (stopNode node) } i).1
                      (if (stopNode node).remaining = 0 then i + 1 else i)).2.1
                      i = 0 := by omega
                  rw [if_neg (fun hx => hx.1 hb)]
                  rw [if_pos ⟨hrem, hc0, hreg⟩]
                · rw [if_neg (fun hx => hb hx.1)]
                  have hnil : cpCount ([] : List Event) i = 0 := rfl
                  rw [hnil]
                  by_cases hc : remAt (nextTrainPhaseAux fuel (postStopHook
                      { s with flow := s.flow.set i (stopNode node) } i).1
                      (if (stopNode node).remaining = 0 then i + 1 else i)).2.1
                      i = 0
                  · rw [if_pos ⟨hb, hc, hreg⟩, if_pos ⟨hrem, hc, hreg⟩]
                  · rw [if_neg (fun hx => hc hx.2.1),
                      if_neg (fun hx => hc hx.2.1)]
              · rw [if_neg (fun hx => hreg hx.2)]
                have hnil : cpCount ([] : List Event) i = 0 := rfl
                rw [hnil]
                rw [if_neg (fun hx => hreg hx.2.2),
                  if_neg (fun hx => hreg hx.2.2)]
            · rw [remAt_set_ne _ _ _ _ hij] at hmono ⊢
              have hcp0 : cpCount (if (stopNode node).remaining = 0 ∧
                  registered s i = true then [Event.checkpoint i 0] else [])
                  j = 0 := by
                by_cases hc : (stopNode node).remaining = 0 ∧
                    registered s i = true
                · rw [if_pos hc, cpCount_single, if_neg hij]
                · rw [if_neg hc]
                  rfl
              rw [hcp0]
              simp

theorem ur_checkpoints (fuel : Nat) (s : PFState) (results : List Chunk) :
    (use_results fuel s results).2.1.checkpoints = s.checkpoints := by
  unfold use_results
  cases hit : s.iTrainNode with
  | none =>
    cases hex : s.execIter with
    | some it => rfl
    | none => rfl
  | some i =>
    dsimp only
    cases hget : s.flow.get? i with
    | none => rfl
    | some node =>
      dsimp only
      rw [aux_checkpoints, psh_checkpoints]

theorem ur_registered (fuel : Nat) (s : PFState) (results : List Chunk)
    (j : Nat) :
    registered (use_results fuel s results).2.1 j = registered s j := by
  unfold registered
  rw [ur_checkpoints]

theorem ur_rem_mono (fuel : Nat) (s : PFState) (results : List Chunk)
    (j : Nat) :
    remAt (use_results fuel s results).2.1 j ≤ remAt s j := by
  obtain ⟨fl, cps, att, tit, tir, itn, exi, nxt, cr⟩ := s
  unfold use_results
  cases itn with
  | none =>
    cases exi with
    | some it => exact Nat.le_refl _
    | none => exact Nat.le_refl _
  | some i =>
    dsimp only
    cases hget : fl.get? i with
    | none => exact Nat.le_refl _
    | some node =>
      dsimp only
      have h1 := aux_rem_mono fuel (postStopHook
        { flow := fl.set i (stopNode node), checkpoints := cps, attrs := att,
          trainIterables := tit, trainIter := tir, iTrainNode := some i,
          execIter := exi, nextTask := nxt, crashRecovery := cr } i).1
        (if (stopNode node).remaining = 0 then i + 1 else i) j
      rw [remAt_psh] at h1
      refine Nat.le_trans h1 ?_
      unfold remAt
      dsimp only
      by_cases hij : i = j
      · subst hij
        rw [getD_set_self _ _ _ _ (lt_of_get?_some hget)]
        rw [getD_get?, hget, Option.getD_some]
        unfold stopNode
        dsimp only
        omega
      · rw [getD_set_ne _ _ _ _ _ hij]

theorem ur_cp_zero (fuel : Nat) (s : PFState) (results : List Chunk)
    (j r : Nat) :
    Event.checkpoint j r ∈ (use_results fuel s results).2.2 → r = 0 := by
  obtain ⟨fl, cps, att, tit, tir, itn, exi, nxt, cr⟩ := s
  unfold use_results
  cases itn with
  | none =>
    cases exi with
    | some it =>
      intro h
      simp at h
    | none =>
      intro h
      simp at h
  | some i =>
    dsimp only
    cases hget : fl.get? i with
    | none =>
      intro h
      simp at h
    | some node =>
      dsimp only
      intro h
      rw [List.mem_append] at h
      rcases h with h | h
      · rw [List.mem_append] at h
        rcases h with h | h
        · rw [List.mem_append] at h
          rcases h with h | h
          · simp at h
          · simp at h
        · have hs1get : ((⟨fl.set i (stopNode node), cps, att, tit, tir,
              some i, exi, nxt, cr⟩ : PFState)).flow.get? i =
              some (stopNode node) := by
            dsimp only
            exact List.get?_set_eq_of_lt _ (lt_of_get?_some hget)
          rw [psh_events _ _ _ hs1get] at h
          by_cases hc : (stopNode node).remaining = 0 ∧
              registered (⟨fl.set i (stopNode node), cps, att, tit, tir,
                some i, exi, nxt, cr⟩ : PFState) i = true
          · rw [if_pos hc] at h
            simp at h
            omega
          · rw [if_neg hc] at h
            simp at h
      · exact aux_cp_zero fuel _ _ _ _ h

theorem cpCount_join (i j : Nat) (l : List Chunk) :
    cpCount (l.map (Event.join i)) j = 0 := by
  unfold cpCount
  rw [List.countP_eq_zero]
  intro e he
  rw [List.mem_map] at he
  obtain ⟨d, _, hd⟩ := he
  subst hd
  simp

/-- Checkpoint accounting for `use_results` during an active training phase:
node `j`'s checkpoint fires exactly once when node `j` crosses to fully
trained during the call and has a registered checkpoint function. -/
theorem ur_cp_count (fuel : Nat) :
    ∀ (s : PFState) (results : List Chunk) (i j : Nat) (node : Node),
      s.iTrainNode = some i → s.flow.get? i = some node →
      node.remaining ≠ 0 →
      cpCount (use_results fuel s results).2.2 j =
        if remAt s j ≠ 0 ∧ remAt (use_results fuel s results).2.1 j = 0 ∧
            registered s j = true then 1 else 0 := by
  intro s results i j node hi hget hrem
  obtain ⟨fl, cps, att, tit, tir, itn, exi, nxt, cr⟩ := s
  simp only at hi hget
  subst hi
  simp only [use_results, hget]
  rw [cpCount_append, cpCount_append, cpCount_append, cpCount_join,
    cpCount_stop_hook]
  have hs1get : ((⟨fl.set i (stopNode node), cps, att, tit, tir,
      some i, exi, nxt, cr⟩ : PFState)).flow.get? i =
      some (stopNode node) := by
    dsimp only
    exact List.get?_set_eq_of_lt _ (lt_of_get?_some hget)
  rw [psh_events _ _ _ hs1get]
  have hr1 := aux_cp_count fuel (postStopHook
    (⟨fl.set i (stopNode node), cps, att, tit, tir,
      some i, exi, nxt, cr⟩ : PFState) i).1
    (if (stopNode node).remaining = 0 then i + 1 else i) j
  rw [hr1, remAt_psh, registered_psh]
  have hregs1 : registered (⟨fl.set i (stopNode node), cps, att, tit, tir,
      some i, exi, nxt, cr⟩ : PFState) j =
      registered (⟨fl, cps, att, tit, tir, some i, exi, nxt, cr⟩ : PFState)
        j := rfl
  have hregs1i : registered (⟨fl.set i (stopNode node), cps, att, tit, tir,
      some i, exi, nxt, cr⟩ : PFState) i =
      registered (⟨fl, cps, att, tit, tir, some i, exi, nxt, cr⟩ : PFState)
        i := rfl
  rw [hregs1, hregs1i]
  have hmono := aux_rem_mono fuel (postStopHook
    (⟨fl.set i (stopNode node), cps, att, tit, tir,
      some i, exi, nxt, cr⟩ : PFState) i).1
    (if (stopNode node).remaining = 0 then i + 1 else i) j
  rw [remAt_psh] at hmono
  by_cases hij : i = j
  · subst hij
    have hS1 : remAt (⟨fl.set i (stopNode node), cps, att, tit, tir,
        some i, exi, nxt, cr⟩ : PFState) i = (stopNode node).remaining := by
      unfold remAt
      dsimp only
      rw [getD_set_self _ _ _ _ (lt_of_get?_some hget)]
    have hS : remAt (⟨fl, cps, att, tit, tir, some i, exi, nxt, cr⟩
        : PFState) i = node.remaining := by
      unfold remAt
      dsimp only
      rw [getD_get?, hget, Option.getD_some]
    rw [hS1] at hmono ⊢
    rw [hS]
    by_cases hreg : registered (⟨fl, cps, att, tit, tir, some i, exi, nxt,
        cr⟩ : PFState) i = true
    · by_cases hb : (stopNode node).remaining = 0
      · rw [if_pos ⟨hb, hreg⟩]
        rw [cpCount_single]
        rw [if_pos rfl]
        have hc0 : remAt (nextTrainPhaseAux fuel (postStopHook
            (⟨fl.set i (stopNode node), cps, att, tit, tir,
              some i, exi, nxt, cr⟩ : PFState) i).1
            (if (stopNode node).remaining = 0 then i + 1 else i)).2.1
            i = 0 := by omega
        rw [if_neg (fun hx => hx.1 hb)]
        rw [if_pos ⟨hrem, hc0, hreg⟩]
      · rw [if_neg (fun hx => hb hx.1)]
        have hnil : cpCount ([] : List Event) i = 0 := rfl
        rw [hnil]
        by_cases hc : remAt (nextTrainPhaseAux fuel (postStopHook
            (⟨fl.set i (stopNode node), cps, att, tit, tir,
              some i, exi, nxt, cr⟩ : PFState) i).1
            (if (stopNode node).remaining = 0 then i + 1 else i)).2.1
            i = 0
        · rw [if_pos ⟨hb, hc, hreg⟩, if_pos ⟨hrem, hc, hreg⟩]
        · rw [if_neg (fun hx => hc hx.2.1),
            if_neg (fun hx => hc hx.2.1)]
    · rw [if_neg (fun hx => hreg hx.2)]
      have hnil : cpCount ([] : List Event) i = 0 := rfl
      rw [hnil]
      rw [if_neg (fun hx => hreg hx.2.2),
        if_neg (fun hx => hreg hx.2.2)]
  · have hS1j : remAt (⟨fl.set i (stopNode node), cps, att, tit, tir,
        some i, exi, nxt, cr⟩ : PFState) j =
        remAt (⟨fl, cps, att, tit, tir, some i, exi, nxt, cr⟩ : PFState)
          j := by
      unfold remAt
      dsimp only
      rw [getD_set_ne _ _ _ _ _ hij]
    rw [hS1j] at hmono ⊢
    have hcp0 : cpCount (if (stopNode node).remaining = 0 ∧
        registered (⟨fl, cps, att, tit, tir, some i, exi, nxt, cr⟩
          : PFState) i = true then [Event.checkpoint i 0] else [])
        j = 0 := by
      by_cases hc : (stopNode node).remaining = 0 ∧
          registered (⟨fl, cps, att, tit, tir, some i, exi, nxt, cr⟩
            : PFState) i = true
      · rw [if_pos hc, cpCount_single, if_neg hij]
      · rw [if_neg hc]
        rfl
    rw [hcp0]
    simp

/-- After a successful `use_results` during an active training phase the
training invariant holds. -/
theorem ur_inv (fuel : Nat) :
    ∀ (s : PFState) (results : List Chunk) (i : Nat) (node : Node)
      (v : Option Chunk),
      s.iTrainNode = some i → s.flow.get? i = some node →
      (∀ k, k < i → remAt s k = 0) →
      (use_results fuel s results).1 = .ok v →
      TrainInv (use_results fuel s results).2.1 := by
  intro s results i node v hi hget hbelow
  obtain ⟨fl, cps, att, tit, tir, itn, exi, nxt, cr⟩ := s
  simp only at hi hget
  subst hi
  simp only [use_results, hget]
  intro hok
  have hok2 : (nextTrainPhaseAux fuel (postStopHook
      (⟨fl.set i (stopNode node), cps, att, tit, tir,
        some i, exi, nxt, cr⟩ : PFState) i).1
      (if (stopNode node).remaining = 0 then i + 1 else i)).1 = .ok () := by
    cases hr : (nextTrainPhaseAux fuel (postStopHook
        (⟨fl.set i (stopNode node), cps, att, tit, tir,
          some i, exi, nxt, cr⟩ : PFState) i).1
        (if (stopNode node).remaining = 0 then i + 1 else i)).1 with
    | error e =>
      rw [hr] at hok
      simp [Except.map] at hok
    | ok u => rfl
  refine aux_inv_full fuel _ _ ?_ hok2
  intro k hk
  rw [remAt_psh]
  unfold remAt
  dsimp only
  by_cases h0 : (stopNode node).remaining = 0
  · rw [if_pos h0] at hk
    by_cases hki : k = i
    · subst hki
      rw [getD_set_self _ _ _ _ (lt_of_get?_some hget)]
      exact h0
    · rw [getD_set_ne _ _ _ _ _ (fun he => hki he.symm)]
      exact hbelow k (by omega)
  · rw [if_neg h0] at hk
    rw [getD_set_ne _ _ _ _ _ (fun he => by omega)]
    exact hbelow k hk

/-- `use_results` never moves the training index backwards. -/
theorem ur_index_ge (fuel : Nat) :
    ∀ (s : PFState) (results : List Chunk) (i j : Nat),
      s.iTrainNode = some i →
      (use_results fuel s results).2.1.iTrainNode = some j →
      i ≤ j := by
  intro s results i j hi
  obtain ⟨fl, cps, att, tit, tir, itn, exi, nxt, cr⟩ := s
  simp only at hi
  subst hi
  simp only [use_results]
  cases hget : fl.get? i with
  | none =>
    intro h
    simp only at h
    cases h
    exact Nat.le_refl _
  | some node =>
    dsimp only
    intro h
    have h2 := aux_index_mono fuel _ _ _ h
    by_cases h0 : (stopNode node).remaining = 0
    · rw [if_pos h0] at h2
      omega
    · rw [if_neg h0] at h2
      exact h2

theorem get_task_fields (s : PFState) :
    (get_task s).2.flow = s.flow ∧ (get_task s).2.checkpoints = s.checkpoints ∧
    (get_task s).2.iTrainNode = s.iTrainNode := by
  obtain ⟨fl, cps, att, tit, tir, itn, exi, nxt, cr⟩ := s
  unfold get_task
  cases nxt with
  | none => exact ⟨rfl, rfl, rfl⟩
  | some task =>
    cases itn with
    | some j => exact ⟨rfl, rfl, rfl⟩
    | none =>
      cases exi with
      | some it => exact ⟨rfl, rfl, rfl⟩
      | none => exact ⟨rfl, rfl, rfl⟩

/-- Draining tasks changes neither the flow, nor the checkpoint list, nor
the training index. -/
theorem dt_state (fuel : Nat) :
    ∀ (s : PFState) (sid : Option Nat) (s2 : PFState) (ts : List Task)
      (evs : List Event),
      drainTasks fuel s sid = .ok (s2, ts, evs) →
      s2.flow = s.flow ∧ s2.checkpoints = s.checkpoints ∧
      s2.iTrainNode = s.iTrainNode := by
  induction fuel with
  | zero =>
    intro s sid s2 ts evs h
    obtain ⟨fl, cps, att, tit, tir, itn, exi, nxt, cr⟩ := s
    unfold drainTasks at h
    cases nxt with
    | none =>
      simp at h
      obtain ⟨h1, -, -⟩ := h
      rw [← h1]
      exact ⟨rfl, rfl, rfl⟩
    | some t0 => simp at h
  | succ fuel ih =>
    intro s sid s2 ts evs h
    obtain ⟨fl, cps, att, tit, tir, itn, exi, nxt, cr⟩ := s
    unfold drainTasks at h
    cases nxt with
    | none =>
      simp at h
      obtain ⟨h1, -, -⟩ := h
      rw [← h1]
      exact ⟨rfl, rfl, rfl⟩
    | some t0 =>
      dsimp only at h
      cases hp : (get_task ⟨fl, cps, att, tit, tir, itn, exi, some t0, cr⟩).1 with
      | error e =>
        rw [hp] at h
        simp at h
      | ok t =>
        rw [hp] at h
        cases sid with
        | none => simp at h
        | some id =>
          dsimp only at h
          cases hrec : drainTasks fuel
              (get_task ⟨fl, cps, att, tit, tir, itn, exi, some t0, cr⟩).2
              (some id) with
          | error e =>
            rw [hrec] at h
            simp at h
          | ok w =>
            obtain ⟨w1, w2, w3⟩ := w
            rw [hrec] at h
            simp at h
            obtain ⟨h1, -, -⟩ := h
            obtain ⟨g1, g2, g3⟩ := ih
              (get_task ⟨fl, cps, att, tit, tir, itn, exi, some t0, cr⟩).2
              (some id) w1 w2 w3 hrec
            obtain ⟨f1, f2, f3⟩ := get_task_fields
              ⟨fl, cps, att, tit, tir, itn, exi, some t0, cr⟩
            subst h1
            exact ⟨g1.trans f1, g2.trans f2, g3.trans f3⟩

/-- Every event drained out of the task loop is an `add_task` on the given
scheduler, tagged with the entry training index. -/
theorem dt_events (fuel : Nat) :
    ∀ (s : PFState) (sid : Option Nat) (s2 : PFState) (ts : List Task)
      (evs : List Event),
      drainTasks fuel s sid = .ok (s2, ts, evs) →
      ∀ e ∈ evs, ∃ id, sid = some id ∧ e = Event.addTask id s.iTrainNode := by
  induction fuel with
  | zero =>
    intro s sid s2 ts evs h
    obtain ⟨fl, cps, att, tit, tir, itn, exi, nxt, cr⟩ := s
    unfold drainTasks at h
    cases nxt with
    | none =>
      simp at h
      obtain ⟨-, -, h3⟩ := h
      subst h3
      intro e he
      simp at he
    | some t0 => simp at h
  | succ fuel ih =>
    intro s sid s2 ts evs h
    obtain ⟨fl, cps, att, tit, tir, itn, exi, nxt, cr⟩ := s
    unfold drainTasks at h
    cases nxt with
    | none =>
      simp at h
      obtain ⟨-, -, h3⟩ := h
      subst h3
      intro e he
      simp at he
    | some t0 =>
      dsimp only at h
      cases hp : (get_task ⟨fl, cps, att, tit, tir, itn, exi, some t0, cr⟩).1 with
      | error e =>
        rw [hp] at h
        simp at h
      | ok t =>
        rw [hp] at h
        cases sid with
        | none => simp at h
        | some id =>
          dsimp only at h
          cases hrec : drainTasks fuel
              (get_task ⟨fl, cps, att, tit, tir, itn, exi, some t0, cr⟩).2
              (some id) with
          | error e =>
            rw [hrec] at h
            simp at h
          | ok w =>
            obtain ⟨w1, w2, w3⟩ := w
            rw [hrec] at h
            simp at h
            obtain ⟨-, -, h3⟩ := h
            subst h3
            intro e he
            rw [List.mem_cons] at he
            rcases he with he | he
            · exact ⟨id, rfl, he⟩
            · obtain ⟨id2, hid2, he2⟩ := ih
                (get_task ⟨fl, cps, att, tit, tir, itn, exi, some t0, cr⟩).2
                (some id) w1 w2 w3 hrec e he
              obtain ⟨-, -, f3⟩ := get_task_fields
                ⟨fl, cps, att, tit, tir, itn, exi, some t0, cr⟩
              injection hid2 with hh
              subst hh
              exact ⟨id, rfl, by rw [he2, f3]⟩

theorem dt_cp_count (fuel : Nat) (s : PFState) (sid : Option Nat)
    (s2 : PFState) (ts : List Task) (evs : List Event) (j : Nat)
    (h : drainTasks fuel s sid = .ok (s2, ts, evs)) :
    cpCount evs j = 0 := by
  unfold cpCount
  rw [List.countP_eq_zero]
  intro e he
  obtain ⟨id, -, he2⟩ := dt_events fuel s sid s2 ts evs h e he
  subst he2
  simp

theorem disposeK_events (k : Nat) :
    ∀ (cur : Option Nat) (scheds : List (Option Nat)),
      ∀ e ∈ (disposeK k cur scheds).2,
        (∃ id, e = Event.shutdown id) ∨ (∃ c, e = Event.pullSched c) := by
  induction k with
  | zero =>
    intro cur scheds e he
    simp [disposeK] at he
  | succ k ih =>
    intro cur scheds e he
    rw [disposeK.eq_def] at he
    dsimp only at he
    cases scheds with
    | nil =>
      cases cur with
      | some id =>
        simp at he
        subst he
        exact Or.inl ⟨id, rfl⟩
      | none => simp at he
    | cons c rest =>
      dsimp only at he
      rw [List.mem_append, List.mem_append] at he
      rcases he with (he | he) | he
      · cases cur with
        | some id =>
          simp at he
          subst he
          exact Or.inl ⟨id, rfl⟩
        | none => simp at he
      · simp at he
        subst he
        exact Or.inr ⟨c, rfl⟩
      · exact ih c rest e he

theorem disposeK_cp_count (k : Nat) (cur : Option Nat)
    (scheds : List (Option Nat)) (j : Nat) :
    cpCount (disposeK k cur scheds).2 j = 0 := by
  unfold cpCount
  rw [List.countP_eq_zero]
  intro e he
  rcases disposeK_events k cur scheds e he with ⟨id, he2⟩ | ⟨c, he2⟩ <;>
    subst he2 <;> simp

theorem TrainInv_of_eq {s1 s2 : PFState} (hf : s2.flow = s1.flow)
    (hi : s2.iTrainNode = s1.iTrainNode) (h : TrainInv s1) : TrainInv s2 := by
  unfold TrainInv remAt at h ⊢
  rw [hf, hi]
  exact h

/-- Nodes never regain training phases during the driving loop. -/
theorem loop_rem_mono (fuel : Nat) :
    ∀ (s : PFState) (cur : Option Nat) (rem : List (Option Nat))
      (last j : Nat),
      remAt (trainLoopMS fuel s cur rem last).2.1 j ≤ remAt s j := by
  induction fuel with
  | zero =>
    intro s cur rem last j
    exact Nat.le_refl _
  | succ fuel ih =>
    intro s cur rem last j
    rw [trainLoopMS]
    cases hit : s.iTrainNode with
    | none => exact Nat.le_refl _
    | some i0 =>
      dsimp only
      cases hdt : drainTasks fuel s cur with
      | error e => exact Nat.le_refl _
      | ok w =>
        obtain ⟨s1, ts, evs1⟩ := w
        dsimp only
        have hrs1 : ∀ m, remAt s1 m = remAt s m := by
          intro m
          obtain ⟨hf, -, -⟩ := dt_state fuel s cur s1 ts evs1 hdt
          unfold remAt
          rw [hf]
        by_cases hts : ts.length = 0
        · rw [if_pos hts]
          exact Nat.le_of_eq (hrs1 j)
        · rw [if_neg hts]
          cases hur : (use_results fuel s1 (List.replicate ts.length ([] : Chunk))).1 with
          | error e =>
            dsimp only
            calc remAt (use_results fuel s1
                  (List.replicate ts.length ([] : Chunk))).2.1 j
                ≤ remAt s1 j := ur_rem_mono fuel s1 _ j
              _ = remAt s j := hrs1 j
          | ok v =>
            dsimp only
            have hur_mono : remAt (use_results fuel s1
                (List.replicate ts.length ([] : Chunk))).2.1 j ≤ remAt s j :=
              Nat.le_trans (ur_rem_mono fuel s1 _ j) (Nat.le_of_eq (hrs1 j))
            cases hit2 : (use_results fuel s1
                (List.replicate ts.length ([] : Chunk))).2.1.iTrainNode with
            | some i =>
              dsimp only
              by_cases hgt : i > last
              · rw [if_pos hgt]
                cases hdk : disposeK (i - last) cur rem with
                | mk dkr dkevs =>
                  cases dkr with
                  | ok p =>
                    obtain ⟨cur2, rem2⟩ := p
                    dsimp only
                    exact Nat.le_trans (ih _ cur2 rem2 i j) hur_mono
                  | error e =>
                    dsimp only
                    exact hur_mono
              · rw [if_neg hgt]
                dsimp only
                exact Nat.le_trans (ih _ cur rem last j) hur_mono
            | none =>
              dsimp only
              exact Nat.le_trans (ih _ cur rem last j) hur_mono

/-- The driving loop never touches the checkpoint list. -/
theorem loop_checkpoints (fuel : Nat) :
    ∀ (s : PFState) (cur : Option Nat) (rem : List (Option Nat))
      (last : Nat),
      (trainLoopMS fuel s cur rem last).2.1.checkpoints = s.checkpoints := by
  induction fuel with
  | zero =>
    intro s cur rem last
    rfl
  | succ fuel ih =>
    intro s cur rem last
    rw [trainLoopMS]
    cases hit : s.iTrainNode with
    | none => rfl
    | some i0 =>
      dsimp only
      cases hdt : drainTasks fuel s cur with
      | error e => rfl
      | ok w =>
        obtain ⟨s1, ts, evs1⟩ := w
        dsimp only
        have hcs1 : s1.checkpoints = s.checkpoints :=
          (dt_state fuel s cur s1 ts evs1 hdt).2.1
        by_cases hts : ts.length = 0
        · rw [if_pos hts]
          exact hcs1
        · rw [if_neg hts]
          cases hur : (use_results fuel s1 (List.replicate ts.length ([] : Chunk))).1 with
          | error e =>
            dsimp only
            rw [ur_checkpoints]
            exact hcs1
          | ok v =>
            dsimp only
            have hurc : (use_results fuel s1
                (List.replicate ts.length ([] : Chunk))).2.1.checkpoints =
                s.checkpoints := by
              rw [ur_checkpoints]
              exact hcs1
            cases hit2 : (use_results fuel s1
                (List.replicate ts.length ([] : Chunk))).2.1.iTrainNode with
            | some i =>
              dsimp only
              by_cases hgt : i > last
              · rw [if_pos hgt]
                cases hdk : disposeK (i - last) cur rem with
                | mk dkr dkevs =>
                  cases dkr with
                  | ok p =>
                    obtain ⟨cur2, rem2⟩ := p
                    dsimp only
                    rw [ih]
                    exact hurc
                  | error e =>
                    dsimp only
                    exact hurc
              · rw [if_neg hgt]
                dsimp only
                rw [ih]
                exact hurc
            | none =>
              dsimp only
              rw [ih]
              exact hurc

/-- A successful driving loop ends in the terminal state with every node
fully trained. -/
theorem loop_terminal (fuel : Nat) :
    ∀ (s : PFState) (cur : Option Nat) (rem : List (Option Nat)) (last : Nat),
      TrainInv s →
      (trainLoopMS fuel s cur rem last).1 = .ok () →
      (trainLoopMS fuel s cur rem last).2.1.iTrainNode = none ∧
      (∀ k, remAt (trainLoopMS fuel s cur rem last).2.1 k = 0) := by
  induction fuel with
  | zero =>
    intro s cur rem last _ hok
    simp [trainLoopMS] at hok
  | succ fuel ih =>
    intro s cur rem last hinv
    rw [trainLoopMS]
    cases hit : s.iTrainNode with
    | none =>
      intro _
      exact ⟨hit, hinv.2 hit⟩
    | some i0 =>
      dsimp only
      cases hdt : drainTasks fuel s cur with
      | error e =>
        intro hok
        simp at hok
      | ok w =>
        obtain ⟨s1, ts, evs1⟩ := w
        dsimp only
        have hds := dt_state fuel s cur s1 ts evs1 hdt
        have hinv1 : TrainInv s1 := TrainInv_of_eq hds.1 hds.2.2 hinv
        have hit1 : s1.iTrainNode = some i0 := by rw [hds.2.2, hit]
        obtain ⟨⟨node, hnode, hnrem⟩, hbelow⟩ := hinv1.1 i0 hit1
        by_cases hts : ts.length = 0
        · rw [if_pos hts]
          intro hok
          simp at hok
        · rw [if_neg hts]
          cases hur : (use_results fuel s1
              (List.replicate ts.length ([] : Chunk))).1 with
          | error e =>
            dsimp only
            intro hok
            simp at hok
          | ok v =>
            dsimp only
            have hinv2 : TrainInv (use_results fuel s1
                (List.replicate ts.length ([] : Chunk))).2.1 :=
              ur_inv fuel s1 _ i0 node v hit1 hnode hbelow hur
            cases hit2 : (use_results fuel s1
                (List.replicate ts.length ([] : Chunk))).2.1.iTrainNode with
            | some i =>
              dsimp only
              by_cases hgt : i > last
              · rw [if_pos hgt]
                cases hdk : disposeK (i - last) cur rem with
                | mk dkr dkevs =>
                  cases dkr with
                  | ok p =>
                    obtain ⟨cur2, rem2⟩ := p
                    dsimp only
                    exact ih _ cur2 rem2 i hinv2
                  | error e =>
                    dsimp only
                    intro hok
                    simp at hok
              · rw [if_neg hgt]
                dsimp only
                exact ih _ cur rem last hinv2
            | none =>
              dsimp only
              exact ih _ cur rem last hinv2

/-- Every checkpoint event of the driving loop records a node with zero
remaining phases. -/
theorem loop_cp_zero (fuel : Nat) :
    ∀ (s : PFState) (cur : Option Nat) (rem : List (Option Nat))
      (last j r : Nat),
      Event.checkpoint j r ∈ (trainLoopMS fuel s cur rem last).2.2.1 →
      r = 0 := by
  induction fuel with
  | zero =>
    intro s cur rem last j r h
    simp [trainLoopMS] at h
  | succ fuel ih =>
    intro s cur rem last j r
    rw [trainLoopMS]
    cases hit : s.iTrainNode with
    | none =>
      intro h
      simp at h
    | some i0 =>
      dsimp only
      cases hdt : drainTasks fuel s cur with
      | error e =>
        intro h
        simp at h
      | ok w =>
        obtain ⟨s1, ts, evs1⟩ := w
        dsimp only
        have hevs1 : ∀ r2, Event.checkpoint j r2 ∈ evs1 → False := by
          intro r2 hmem
          obtain ⟨id, -, he⟩ := dt_events fuel s cur s1 ts evs1 hdt _ hmem
          cases he
        by_cases hts : ts.length = 0
        · rw [if_pos hts]
          intro h
          exact absurd h (fun hmem => hevs1 r hmem)
        · rw [if_neg hts]
          cases hur : (use_results fuel s1
              (List.replicate ts.length ([] : Chunk))).1 with
          | error e =>
            dsimp only
            intro h
            rw [List.mem_append] at h
            rcases h with h | h
            · exact absurd h (fun hmem => hevs1 r hmem)
            · exact ur_cp_zero fuel s1 _ j r h
          | ok v =>
            dsimp only
            cases hit2 : (use_results fuel s1
                (List.replicate ts.length ([] : Chunk))).2.1.iTrainNode with
            | some i =>
              dsimp only
              by_cases hgt : i > last
              · rw [if_pos hgt]
                cases hdk : disposeK (i - last) cur rem with
                | mk dkr dkevs =>
                  cases dkr with
                  | ok p =>
                    obtain ⟨cur2, rem2⟩ := p
                    dsimp only
                    intro h
                    rw [List.mem_append, List.mem_append, List.mem_append]
                      at h
                    rcases h with ((h | h) | h) | h
                    · exact absurd h (fun hmem => hevs1 r hmem)
                    · exact ur_cp_zero fuel s1 _ j r h
                    · have h2 : Event.checkpoint j r ∈
                          (disposeK (i - last) cur rem).2 := by
                        rw [hdk]
                        exact h
                      rcases disposeK_events (i - last) cur rem _ h2 with
                        ⟨id, he⟩ | ⟨c, he⟩ <;> cases he
                    · exact ih _ cur2 rem2 i j r h
                  | error e =>
                    dsimp only
                    intro h
                    rw [List.mem_append, List.mem_append] at h
                    rcases h with (h | h) | h
                    · exact absurd h (fun hmem => hevs1 r hmem)
                    · exact ur_cp_zero fuel s1 _ j r h
                    · have h2 : Event.checkpoint j r ∈
                          (disposeK (i - last) cur rem).2 := by
                        rw [hdk]
                        exact h
                      rcases disposeK_events (i - last) cur rem _ h2 with
                        ⟨id, he⟩ | ⟨c, he⟩ <;> cases he
              · rw [if_neg hgt]
                dsimp only
                intro h
                rw [List.mem_append, List.mem_append] at h
                rcases h with (h | h) | h
                · exact absurd h (fun hmem => hevs1 r hmem)
                · exact ur_cp_zero fuel s1 _ j r h
                · exact ih _ cur rem last j r h
            | none =>
              dsimp only
              intro h
              rw [List.mem_append, List.mem_append] at h
              rcases h with (h | h) | h
              · exact absurd h (fun hmem => hevs1 r hmem)
              · exact ur_cp_zero fuel s1 _ j r h
              · exact ih _ cur rem last j r h

/-- Checkpoint accounting for the driving loop: over a successful run of the
loop, node `j`'s checkpoint fires exactly once when node `j` crosses from
training to fully trained and has a registered checkpoint function. -/
theorem loop_cp_count (fuel : Nat) :
    ∀ (s : PFState) (cur : Option Nat) (rem : List (Option Nat))
      (last j : Nat),
      TrainInv s →
      (trainLoopMS fuel s cur rem last).1 = .ok () →
      cpCount (trainLoopMS fuel s cur rem last).2.2.1 j =
        if remAt s j ≠ 0 ∧
            remAt (trainLoopMS fuel s cur rem last).2.1 j = 0 ∧
            registered s j = true then 1 else 0 := by
  induction fuel with
  | zero =>
    intro s cur rem last j _ hok
    simp [trainLoopMS] at hok
  | succ fuel ih =>
    intro s cur rem last j hinv
    rw [trainLoopMS]
    cases hit : s.iTrainNode with
    | none =>
      intro _
      show cpCount [] j = _
      rw [if_neg]
      · rfl
      · rintro ⟨h1, h2, _⟩
        exact h1 h2
    | some i0 =>
      dsimp only
      cases hdt : drainTasks fuel s cur with
      | error e =>
        intro hok
        simp at hok
      | ok w =>
        obtain ⟨s1, ts, evs1⟩ := w
        dsimp only
        have hds := dt_state fuel s cur s1 ts evs1 hdt
        have hrs1 : ∀ m, remAt s1 m = remAt s m := by
          intro m
          unfold remAt
          rw [hds.1]
        have hreg1 : ∀ m, registered s1 m = registered s m := by
          intro m
          unfold registered
          rw [hds.2.1]
        have hinv1 : TrainInv s1 := TrainInv_of_eq hds.1 hds.2.2 hinv
        have hit1 : s1.iTrainNode = some i0 := by rw [hds.2.2, hit]
        obtain ⟨⟨node, hnode, hnrem⟩, hbelow⟩ := hinv1.1 i0 hit1
        have hevs1 : cpCount evs1 j = 0 :=
          dt_cp_count fuel s cur s1 ts evs1 j hdt
        by_cases hts : ts.length = 0
        · rw [if_pos hts]
          intro hok
          simp at hok
        · rw [if_neg hts]
          cases hur : (use_results fuel s1
              (List.replicate ts.length ([] : Chunk))).1 with
          | error e =>
            dsimp only
            intro hok
            simp at hok
          | ok v =>
            dsimp only
            have hinv2 : TrainInv (use_results fuel s1
                (List.replicate ts.length ([] : Chunk))).2.1 :=
              ur_inv fuel s1 _ i0 node v hit1 hnode hbelow hur
            have hurcc := ur_cp_count fuel s1
              (List.replicate ts.length ([] : Chunk)) i0 j node hit1 hnode
              hnrem
            have hurregj : registered (use_results fuel s1
                (List.replicate ts.length ([] : Chunk))).2.1 j =
                registered s j := by
              rw [ur_registered]
              exact hreg1 j
            have hba : remAt (use_results fuel s1
                (List.replicate ts.length ([] : Chunk))).2.1 j ≤
                remAt s j := by
              refine Nat.le_trans (ur_rem_mono fuel s1 _ j) ?_
              exact Nat.le_of_eq (hrs1 j)
            cases hit2 : (use_results fuel s1
                (List.replicate ts.length ([] : Chunk))).2.1.iTrainNode with
            | some i =>
              dsimp only
              by_cases hgt : i > last
              · rw [if_pos hgt]
                cases hdk : disposeK (i - last) cur rem with
                | mk dkr dkevs =>
                  cases dkr with
                  | ok p =>
                    obtain ⟨cur2, rem2⟩ := p
                    dsimp only
                    intro hok
                    rw [cpCount_append, cpCount_append, cpCount_append]
                    rw [hevs1, hurcc, hrs1 j, hreg1 j]
                    have hdkevs : cpCount dkevs j = 0 := by
                      have := disposeK_cp_count (i - last) cur rem j
                      rw [hdk] at this
                      exact this
                    rw [hdkevs]
                    rw [ih _ cur2 rem2 i j hinv2 hok]
                    rw [hurregj]
                    simp only [Nat.zero_add, Nat.add_zero]
                    exact crossing_add _ _ _ _ hba
                      (loop_rem_mono fuel _ cur2 rem2 i j)
                  | error e =>
                    dsimp only
                    intro hok
                    simp at hok
              · rw [if_neg hgt]
                dsimp only
                intro hok
                rw [cpCount_append, cpCount_append]
                rw [hevs1, hurcc, hrs1 j, hreg1 j]
                rw [ih _ cur rem last j hinv2 hok]
                rw [hurregj]
                simp only [Nat.zero_add]
                exact crossing_add _ _ _ _ hba
                  (loop_rem_mono fuel _ cur rem last j)
            | none =>
              dsimp only
              intro hok
              rw [cpCount_append, cpCount_append]
              rw [hevs1, hurcc, hrs1 j, hreg1 j]
              rw [ih _ cur rem last j hinv2 hok]
              rw [hurregj]
              simp only [Nat.zero_add]
              exact crossing_add _ _ _ _ hba
                (loop_rem_mono fuel _ cur rem last j)

theorem cpCount_pull (c0 : Option Nat) (j : Nat) :
    cpCount [Event.pullSched c0] j = 0 := rfl

theorem cpCount_shut_opt (x : Option Nat) (j : Nat) :
    cpCount (match x with
      | some id => [Event.shutdown id]
      | none => []) j = 0 := by
  cases x with
  | some id => rfl
  | none => rfl

/-- Checkpoint accounting for a whole training run via `train` with a
scheduler sequence, from an idle coordinator: node `j`'s checkpoint fires
exactly once when node `j` starts the run still training and has a
registered checkpoint function, and never otherwise. -/
theorem trainMS_cp_count (fuel : Nat) (s : PFState)
    (its : List (Nat → List Chunk)) (scheds : List (Option Nat)) (j : Nat) :
    s.iTrainNode = none →
    (trainMS fuel s its scheds).1 = .ok () →
    cpCount (trainMS fuel s its scheds).2.2 j =
      if remAt s j ≠ 0 ∧ registered s j = true then 1 else 0 := by
  intro hnone
  rw [trainMS]
  simp only [hnone, Option.isSome_none, Bool.false_eq_true, if_false]
  cases hsetup : setup_parallel_training fuel s its with
  | mk r1 w =>
    obtain ⟨s1, evs0⟩ := w
    cases r1 with
    | error e =>
      intro hok
      simp at hok
    | ok u =>
      have hsetup2 : nextTrainPhaseAux fuel
          { s with trainIterables := its, iTrainNode := some 0 } 0 =
          (.ok u, s1, evs0) := by
        unfold setup_parallel_training at hsetup
        simp only [hnone, Option.isSome_none, Bool.false_eq_true,
          if_false] at hsetup
        by_cases hlen : its.length ≠ s.flow.length
        · rw [if_pos hlen] at hsetup
          simp at hsetup
        · rw [if_neg hlen] at hsetup
          exact hsetup
      have haux1 : (nextTrainPhaseAux fuel
          { s with trainIterables := its, iTrainNode := some 0 } 0).1 =
          .ok () := by
        rw [hsetup2]
      have hauxs : (nextTrainPhaseAux fuel
          { s with trainIterables := its, iTrainNode := some 0 } 0).2.1 =
          s1 := by
        rw [hsetup2]
      have hauxe : (nextTrainPhaseAux fuel
          { s with trainIterables := its, iTrainNode := some 0 } 0).2.2 =
          evs0 := by
        rw [hsetup2]
      have hinv1 : TrainInv s1 := by
        rw [← hauxs]
        exact aux_inv_full fuel _ 0 (fun k hk => absurd hk (Nat.not_lt_zero k))
          haux1
      have hcevs0 : cpCount evs0 j =
          if remAt s j ≠ 0 ∧ remAt s1 j = 0 ∧ registered s j = true
          then 1 else 0 := by
        have := aux_cp_count fuel
          { s with trainIterables := its, iTrainNode := some 0 } 0 j
        rw [hauxe, hauxs] at this
        exact this
      have hreg1 : ∀ m, registered s1 m = registered s m := by
        intro m
        unfold registered
        rw [← hauxs, aux_checkpoints]
      have hmono1 : remAt s1 j ≤ remAt s j := by
        rw [← hauxs]
        exact aux_rem_mono fuel _ 0 j
      cases scheds with
      | nil =>
        intro hok
        simp at hok
      | cons c0 rest0 =>
        dsimp only
        cases hit1 : s1.iTrainNode with
        | some i0 =>
          dsimp only
          by_cases hgt : i0 > 0
          · rw [if_pos hgt]
            cases hdk : disposeK i0 c0 rest0 with
            | mk dkr dkevs =>
              cases dkr with
              | ok p =>
                obtain ⟨cur, rem⟩ := p
                dsimp only
                intro hok
                rw [cpCount_append, cpCount_append, cpCount_append,
                  cpCount_append, cpCount_pull, cpCount_shut_opt, hcevs0]
                have hdkevs : cpCount dkevs j = 0 := by
                  have := disposeK_cp_count i0 c0 rest0 j
                  rw [hdk] at this
                  exact this
                rw [hdkevs]
                rw [loop_cp_count fuel s1 cur rem i0 j hinv1 hok]
                rw [hreg1 j]
                have hterm := loop_terminal fuel s1 cur rem i0 hinv1 hok
                simp only [Nat.zero_add, Nat.add_zero]
                rw [crossing_add _ _ _ _ hmono1
                  (loop_rem_mono fuel s1 cur rem i0 j)]
                rw [hterm.2 j]
                simp
              | error e =>
                dsimp only
                intro hok
                simp at hok
          · rw [if_neg hgt]
            intro hok
            rw [cpCount_append, cpCount_append, cpCount_append,
              cpCount_pull, cpCount_shut_opt, hcevs0]
            rw [loop_cp_count fuel s1 c0 rest0 i0 j hinv1 hok]
            rw [hreg1 j]
            have hterm := loop_terminal fuel s1 c0 rest0 i0 hinv1 hok
            simp only [Nat.zero_add, Nat.add_zero]
            rw [crossing_add _ _ _ _ hmono1
              (loop_rem_mono fuel s1 c0 rest0 i0 j)]
            rw [hterm.2 j]
            simp
        | none =>
          dsimp only
          cases hdk : disposeK (s.flow.length - 1) c0 rest0 with
          | mk dkr dkevs =>
            cases dkr with
            | ok p =>
              obtain ⟨cur, rem⟩ := p
              dsimp only
              intro _
              rw [cpCount_append, cpCount_append, cpCount_append,
                cpCount_pull, cpCount_shut_opt, hcevs0]
              have hdkevs : cpCount dkevs j = 0 := by
                have := disposeK_cp_count (s.flow.length - 1) c0 rest0 j
                rw [hdk] at this
                exact this
              rw [hdkevs]
              have hz : remAt s1 j = 0 := hinv1.2 hit1 j
              rw [hz]
              simp
            | error e =>
              dsimp only
              intro hok
              simp at hok

theorem mem_shut_opt_not_cp (x : Option Nat) (j r : Nat) :
    Event.checkpoint j r ∈ (match x with
      | some id => [Event.shutdown id]
      | none => ([] : List Event)) → False := by
  cases x with
  | some id =>
    intro h
    simp at h
  | none =>
    intro h
    simp at h

/-- Every checkpoint event of a whole training run records a node with zero
remaining phases. -/
theorem trainMS_cp_zero (fuel : Nat) (s : PFState)
    (its : List (Nat → List Chunk)) (scheds : List (Option Nat)) (j r : Nat) :
    s.iTrainNode = none →
    Event.checkpoint j r ∈ (trainMS fuel s its scheds).2.2 → r = 0 := by
  intro hnone
  rw [trainMS]
  simp only [hnone, Option.isSome_none, Bool.false_eq_true, if_false]
  cases hsetup : setup_parallel_training fuel s its with
  | mk r1 w =>
    obtain ⟨s1, evs0⟩ := w
    cases r1 with
    | error e =>
      intro h
      have hevs0 : ∀ r2, Event.checkpoint j r2 ∈ evs0 → r2 = 0 := by
        intro r2 hmem
        unfold setup_parallel_training at hsetup
        simp only [hnone, Option.isSome_none, Bool.false_eq_true,
          if_false] at hsetup
        by_cases hlen : its.length ≠ s.flow.length
        · rw [if_pos hlen] at hsetup
          simp at hsetup
          obtain ⟨-, -, h3⟩ := hsetup
          subst h3
          simp at hmem
        · rw [if_neg hlen] at hsetup
          have := aux_cp_zero fuel
            { s with trainIterables := its, iTrainNode := some 0 } 0 j r2
          rw [hsetup] at this
          exact this hmem
      exact hevs0 r h
    | ok u =>
      have hsetup2 : nextTrainPhaseAux fuel
          { s with trainIterables := its, iTrainNode := some 0 } 0 =
          (.ok u, s1, evs0) := by
        unfold setup_parallel_training at hsetup
        simp only [hnone, Option.isSome_none, Bool.false_eq_true,
          if_false] at hsetup
        by_cases hlen : its.length ≠ s.flow.length
        · rw [if_pos hlen] at hsetup
          simp at hsetup
        · rw [if_neg hlen] at hsetup
          exact hsetup
      have hevs0 : ∀ r2, Event.checkpoint j r2 ∈ evs0 → r2 = 0 := by
        intro r2 hmem
        have := aux_cp_zero fuel
          { s with trainIterables := its, iTrainNode := some 0 } 0 j r2
        rw [hsetup2] at this
        exact this hmem
      cases scheds with
      | nil =>
        intro h
        exact hevs0 r h
      | cons c0 rest0 =>
        dsimp only
        intro h
        rw [List.mem_append, List.mem_append, List.mem_append] at h
        rcases h with ((h | h) | h) | h
        · simp at h
        · exact hevs0 r h
        · revert h
          cases hit1 : s1.iTrainNode with
          | some i0 =>
            dsimp only
            by_cases hgt : i0 > 0
            · rw [if_pos hgt]
              cases hdk : disposeK i0 c0 rest0 with
              | mk dkr dkevs =>
                cases dkr with
                | ok p =>
                  obtain ⟨cur, rem⟩ := p
                  dsimp only
                  intro h
                  rw [List.mem_append] at h
                  rcases h with h | h
                  · have h2 : Event.checkpoint j r ∈
                        (disposeK i0 c0 rest0).2 := by
                      rw [hdk]
                      exact h
                    rcases disposeK_events i0 c0 rest0 _ h2 with
                      ⟨id, he⟩ | ⟨c, he⟩ <;> cases he
                  · exact loop_cp_zero fuel s1 cur rem i0 j r h
                | error e =>
                  dsimp only
                  intro h
                  have h2 : Event.checkpoint j r ∈
                      (disposeK i0 c0 rest0).2 := by
                    rw [hdk]
                    exact h
                  rcases disposeK_events i0 c0 rest0 _ h2 with
                    ⟨id, he⟩ | ⟨c, he⟩ <;> cases he
            · rw [if_neg hgt]
              exact loop_cp_zero fuel s1 c0 rest0 i0 j r
          | none =>
            dsimp only
            cases hdk : disposeK (s.flow.length - 1) c0 rest0 with
            | mk dkr dkevs =>
              cases dkr with
              | ok p =>
                obtain ⟨cur, rem⟩ := p
                dsimp only
                intro h
                have h2 : Event.checkpoint j r ∈
                    (disposeK (s.flow.length - 1) c0 rest0).2 := by
                  rw [hdk]
                  exact h
                rcases disposeK_events (s.flow.length - 1) c0 rest0 _ h2 with
                  ⟨id, he⟩ | ⟨c, he⟩ <;> cases he
              | error e =>
                dsimp only
                intro h
                have h2 : Event.checkpoint j r ∈
                    (disposeK (s.flow.length - 1) c0 rest0).2 := by
                  rw [hdk]
                  exact h
                rcases disposeK_events (s.flow.length - 1) c0 rest0 _ h2 with
                  ⟨id, he⟩ | ⟨c, he⟩ <;> cases he
        · exact absurd h (mem_shut_opt_not_cp _ j r)

/-- Counterexample to C8 as stated: a node which is not training (zero
remaining phases) but has a registered checkpoint function. The whole
training run completes successfully, yet the checkpoint hook is never
invoked for that node — the advance procedure skips already-trained nodes
without running the hook point. -/
theorem c8_counterexample :
    (trainMS 3 (pfInit [⟨0, 0, fun _ => false⟩]
      [some (fun _ => [(1, 5)])] ⟨false⟩)
      [fun _ => [[1]]] [some 0]).1 = .ok () ∧
    cpCount (trainMS 3 (pfInit [⟨0, 0, fun _ => false⟩]
      [some (fun _ => [(1, 5)])] ⟨false⟩)
      [fun _ => [[1]]] [some 0]).2.2 0 = 0 :=
  ⟨rfl, rfl⟩

/-- C8 as amended: over a whole successful training run (from a freshly
constructed coordinator), the checkpoint hook of a node with a registered
checkpoint function is invoked exactly once if that node still had training
phases at the start of the run, and never if the node was already fully
trained; every invocation happens with the node's remaining-phase count at
zero (strictly after its final `stop_training`), and whenever the hook point
finds a fully-trained node whose checkpoint function returns a truthy
mapping, that mapping is merged into the coordinator's attribute map. -/
theorem c8_checkpoint_exactly_once :
    ∀ (fuel : Nat) (flow : List Node) (cps : List (Option CheckFn))
      (kwargs : FlowKwargs) (its : List (Nat → List Chunk))
      (scheds : List (Option Nat)) (j : Nat) (f : CheckFn),
      (trainMS fuel (pfInit flow cps kwargs) its scheds).1 = .ok () →
      cps.getD j none = some f →
      (cpCount (trainMS fuel (pfInit flow cps kwargs) its scheds).2.2 j =
        if (flow.getD j default).remaining ≠ 0 then 1 else 0) ∧
      (∀ r, Event.checkpoint j r ∈
        (trainMS fuel (pfInit flow cps kwargs) its scheds).2.2 → r = 0) ∧
      (∀ (s2 : PFState) (i : Nat) (node2 : Node) (f2 : CheckFn),
        s2.flow.get? i = some node2 → node2.remaining = 0 →
        s2.checkpoints.getD i none = some f2 → f2 node2 ≠ [] →
        (postStopHook s2 i).1.attrs = updateAttrs s2.attrs (f2 node2)) := by
  intro fuel flow cps kwargs its scheds j f hok hcp
  refine ⟨?_, ?_, ?_⟩
  · have h := trainMS_cp_count fuel (pfInit flow cps kwargs) its scheds j
      rfl hok
    rw [h]
    have hreg : registered (pfInit flow cps kwargs) j = true := by
      show (cps.getD j none).isSome = true
      rw [hcp]
      rfl
    rw [hreg]
    have hrem : remAt (pfInit flow cps kwargs) j =
        (flow.getD j default).remaining := rfl
    rw [hrem]
    simp
  · intro r
    exact trainMS_cp_zero fuel _ its scheds j r rfl
  · intro s2 i node2 f2 hg hr hc hd
    unfold postStopHook
    rw [hg]
    dsimp only
    rw [if_pos hr, hc]
    dsimp only
    rw [if_neg hd]

/-- Witness for the amended C8: a 1-phase forkable node with a registered
checkpoint function, over a complete run. -/
theorem c8_checkpoint_exactly_once_witness :
    ((trainMS 20 (pfInit [⟨1, 0, fun _ => true⟩]
        [some (fun _ => [(1, 5)])] ⟨false⟩)
        [fun _ => [[1]]] [some 0]).1 = .ok ()) ∧
    (cpCount (trainMS 20 (pfInit [⟨1, 0, fun _ => true⟩]
        [some (fun _ => [(1, 5)])] ⟨false⟩)
        [fun _ => [[1]]] [some 0]).2.2 0 =
      if (([⟨1, 0, fun _ => true⟩] : List Node).getD 0
          default).remaining ≠ 0 then 1 else 0) :=
  ⟨rfl,
   (c8_checkpoint_exactly_once 20 [⟨1, 0, fun _ => true⟩]
     [some (fun _ => [(1, 5)])] ⟨false⟩ [fun _ => [[1]]] [some 0] 0
     (fun _ => [(1, 5)]) rfl rfl).1⟩

/-! ## Scheduler-rotation machinery -/

/-- The scheduler shutdown calls recorded in a trace, in order. -/
def shutList (tr : List Event) : List Nat :=
  tr.filterMap (fun e =>
    match e with
    | .shutdown id => some id
    | _ => none)

/-- The schedulers pulled from the scheduler sequence, in order. -/
def pullList (tr : List Event) : List (Option Nat) :=
  tr.filterMap (fun e =>
    match e with
    | .pullSched c => some c
    | _ => none)

theorem shutList_append (tr1 tr2 : List Event) :
    shutList (tr1 ++ tr2) = shutList tr1 ++ shutList tr2 :=
  List.filterMap_append _ _ _

theorem pullList_append (tr1 tr2 : List Event) :
    pullList (tr1 ++ tr2) = pullList tr1 ++ pullList tr2 :=
  List.filterMap_append _ _ _

/-- An event that is neither a shutdown, a pull, nor an add-task. -/
def isSchedEvent : Event → Bool
  | .pullSched _ => true
  | .shutdown _ => true
  | .addTask _ _ => true
  | _ => false

theorem shutList_eq_nil {tr : List Event}
    (h : ∀ e ∈ tr, isSchedEvent e = false) : shutList tr = [] := by
  unfold shutList
  rw [List.filterMap_eq_nil]
  intro e he
  have := h e he
  cases e <;> first | rfl | simp [isSchedEvent] at this

theorem pullList_eq_nil {tr : List Event}
    (h : ∀ e ∈ tr, isSchedEvent e = false) : pullList tr = [] := by
  unfold pullList
  rw [List.filterMap_eq_nil]
  intro e he
  have := h e he
  cases e <;> first | rfl | simp [isSchedEvent] at this

theorem not_addTask_of_sched_free {tr : List Event}
    (h : ∀ e ∈ tr, isSchedEvent e = false) (sid : Nat) (nd : Option Nat) :
    Event.addTask sid nd ∉ tr := by
  intro hmem
  have := h _ hmem
  simp [isSchedEvent] at this

/-- The hook point produces no scheduler events. -/
theorem psh_sched_free (s : PFState) (i : Nat) :
    ∀ e ∈ (postStopHook s i).2, isSchedEvent e = false := by
  intro e he
  unfold postStopHook at he
  cases hget : s.flow.get? i with
  | none =>
    rw [hget] at he
    simp at he
  | some node =>
    rw [hget] at he
    dsimp only at he
    by_cases hrem : node.remaining = 0
    · rw [if_pos hrem] at he
      cases hcp : s.checkpoints.getD i none with
      | none =>
        rw [hcp] at he
        simp at he
      | some f =>
        rw [hcp] at he
        dsimp only at he
        by_cases hd : f node = []
        · rw [if_pos hd] at he
          simp at he
          subst he
          rfl
        · rw [if_neg hd] at he
          simp at he
          subst he
          rfl
    · rw [if_neg hrem] at he
      simp at he

/-- The advance procedure produces no scheduler events. -/
theorem aux_sched_free (fuel : Nat) :
    ∀ (s : PFState) (i : Nat),
      ∀ e ∈ (nextTrainPhaseAux fuel s i).2.2, isSchedEvent e = false := by
  induction fuel with
  | zero =>
    intro s i e he
    simp [nextTrainPhaseAux] at he
  | succ fuel ih =>
    intro s i e
    rw [nextTrainPhaseAux]
    cases hget : s.flow.get? i with
    | none =>
      intro he
      simp at he
    | some node =>
      dsimp only
      by_cases hrem : node.remaining = 0
      · rw [if_pos hrem]
        exact ih s (i + 1) e
      · rw [if_neg hrem]
        by_cases hfork : node.forkable node.currentPhase = true
        · rw [if_pos hfork]
          cases takeIter s.trainIterables node.currentPhase i with
          | nil =>
            intro he
            simp at he
          | cons c rest =>
            intro he
            simp at he
        · rw [if_neg hfork]
          cases takeIter s.trainIterables node.currentPhase i with
          | nil =>
            intro he
            simp at he
          | cons c rest =>
            dsimp only
            intro he
            rw [List.mem_append, List.mem_append, List.mem_append] at he
            rcases he with ((he | he) | he) | he
            · rw [List.mem_map] at he
              obtain ⟨d, -, hd⟩ := he
              subst hd
              rfl
            · simp at he
              rcases he with he | he <;> subst he <;> rfl
            · exact psh_sched_free _ _ e he
            · exact ih _ _ e he

/-- `use_results` produces no scheduler events. -/
theorem ur_sched_free (fuel : Nat) (s : PFState) (results : List Chunk) :
    ∀ e ∈ (use_results fuel s results).2.2, isSchedEvent e = false := by
  obtain ⟨fl, cps, att, tit, tir, itn, exi, nxt, cr⟩ := s
  unfold use_results
  cases itn with
  | none =>
    cases exi with
    | some it =>
      intro e he
      simp at he
    | none =>
      intro e he
      simp at he
  | some i =>
    dsimp only
    cases hget : fl.get? i with
    | none =>
      intro e he
      simp at he
    | some node =>
      dsimp only
      intro e he
      rw [List.mem_append, List.mem_append, List.mem_append] at he
      rcases he with ((he | he) | he) | he
      · rw [List.mem_map] at he
        obtain ⟨d, -, hd⟩ := he
        subst hd
        rfl
      · simp at he
        rcases he with he | he <;> subst he <;> rfl
      · exact psh_sched_free _ _ e he
      · exact aux_sched_free fuel _ _ e he

theorem getD_drop (l : List (Option Nat)) (m k : Nat) :
    (l.drop m).getD k none = l.getD (m + k) none := by
  rw [getD_get?, getD_get?, List.get?_eq_getElem?, List.get?_eq_getElem?,
    List.getElem?_drop]

theorem drop_eq_getD_cons (l : List (Option Nat)) (n : Nat)
    (h : n < l.length) :
    l.drop n = l.getD n none :: l.drop (n + 1) := by
  rw [List.drop_eq_getElem_cons h]
  congr 1
  rw [getD_get?, List.get?_eq_getElem?, List.getElem?_eq_getElem h]
  rfl

theorem fm_take_succ (l : List (Option Nat)) (k : Nat) (h : k < l.length) :
    (l.take (k + 1)).filterMap id =
      (l.take k).filterMap id ++ (l.getD k none).toList := by
  rw [List.take_succ, List.filterMap_append]
  congr 1
  rw [List.getElem?_eq_getElem h]
  rw [getD_get?, List.get?_eq_getElem?, List.getElem?_eq_getElem h]
  cases l[k] with
  | some a => rfl
  | none => rfl

theorem disposeK_ok_length (k : Nat) :
    ∀ (cur : Option Nat) (scheds : List (Option Nat))
      (p : Option Nat × List (Option Nat)),
      (disposeK k cur scheds).1 = .ok p → k ≤ scheds.length := by
  induction k with
  | zero =>
    intro cur scheds p _
    exact Nat.zero_le _
  | succ k ih =>
    intro cur scheds p h
    rw [disposeK.eq_def] at h
    dsimp only at h
    cases scheds with
    | nil => simp at h
    | cons c rest =>
      dsimp only at h
      have := ih c rest p h
      simp only [List.length_cons]
      omega

/-- Full specification of the scheduler rotation: after `k` rotation steps
starting from active scheduler `cur`, the active scheduler is the `k`-th
element of `cur :: scheds`, exactly the non-`None` schedulers among the
first `k` of `cur :: scheds` have been shut down (in order), exactly the
first `k` elements of `scheds` have been pulled (in order), and no task was
submitted. -/
theorem disposeK_spec (k : Nat) :
    ∀ (cur : Option Nat) (scheds : List (Option Nat)),
      k ≤ scheds.length →
      (disposeK k cur scheds).1 =
        .ok ((cur :: scheds).getD k none, scheds.drop k) ∧
      shutList (disposeK k cur scheds).2 =
        ((cur :: scheds).take k).filterMap id ∧
      pullList (disposeK k cur scheds).2 = scheds.take k ∧
      (∀ sid nd, Event.addTask sid nd ∉ (disposeK k cur scheds).2) := by
  induction k with
  | zero =>
    intro cur scheds _
    refine ⟨rfl, rfl, rfl, ?_⟩
    intro sid nd hmem
    simp [disposeK] at hmem
  | succ k ih =>
    intro cur scheds h
    cases scheds with
    | nil =>
      exact absurd h (by simp)
    | cons c rest =>
      have hk : k ≤ rest.length := by
        simp only [List.length_cons] at h
        omega
      obtain ⟨ih1, ih2, ih3, ih4⟩ := ih c rest hk
      rw [disposeK.eq_def]
      dsimp only
      refine ⟨?_, ?_, ?_, ?_⟩
      · rw [ih1, List.getD_cons_succ, List.drop_succ_cons]
      · rw [shutList_append, shutList_append, ih2]
        cases cur with
        | some id => simp [shutList]
        | none => simp [shutList]
      · rw [pullList_append, pullList_append, ih3]
        cases cur with
        | some id => simp [pullList]
        | none => simp [pullList]
      · intro sid nd hmem
        rw [List.mem_append, List.mem_append] at hmem
        rcases hmem with (hmem | hmem) | hmem
        · cases cur with
          | some id =>
            simp at hmem
          | none => simp at hmem
        · simp at hmem
        · exact ih4 sid nd hmem

/-- Scheduler discipline of the driving loop: entered with the `last`-th
scheduler of the sequence active and the sequence consumed up to position
`last`, a successful loop run ends with the `n`-th scheduler active for some
`n ≥ last`; it has shut down exactly the non-`None` schedulers at positions
`last..n-1` (the final active one still to be shut down by the caller's
`finally`), pulled exactly positions `last+1..n`, and every submitted task
for node `i2` went to the scheduler at position `i2`. -/
theorem loop_sched (fuel : Nat) :
    ∀ (s : PFState) (cur : Option Nat) (rem : List (Option Nat))
      (last : Nat) (scheds0 : List (Option Nat)),
      cur = scheds0.getD last none →
      rem = scheds0.drop (last + 1) →
      last < scheds0.length →
      (∀ i2, s.iTrainNode = some i2 → i2 = last) →
      (trainLoopMS fuel s cur rem last).1 = .ok () →
      ∃ n, last ≤ n ∧ n < scheds0.length ∧
        (trainLoopMS fuel s cur rem last).2.2.2 = scheds0.getD n none ∧
        shutList (trainLoopMS fuel s cur rem last).2.2.1 ++
          (scheds0.getD n none).toList =
          ((scheds0.drop last).take (n - last + 1)).filterMap id ∧
        pullList (trainLoopMS fuel s cur rem last).2.2.1 =
          (scheds0.drop (last + 1)).take (n - last) ∧
        (∀ sid nd, Event.addTask sid nd ∈
            (trainLoopMS fuel s cur rem last).2.2.1 →
          ∃ i2, nd = some i2 ∧ scheds0.getD i2 none = some sid) := by
  induction fuel with
  | zero =>
    intro s cur rem last scheds0 _ _ _ _ hok
    simp [trainLoopMS] at hok
  | succ fuel ih =>
    intro s cur rem last scheds0 hcur hrem hlast hidx
    rw [trainLoopMS]
    cases hit : s.iTrainNode with
    | none =>
      intro _
      refine ⟨last, Nat.le_refl _, hlast, hcur, ?_, ?_, ?_⟩
      · show shutList [] ++ _ = _
        rw [drop_eq_getD_cons scheds0 last hlast]
        have h1 : last - last + 1 = 1 := by omega
        rw [h1]
        show [] ++ _ = _
        rw [List.nil_append]
        cases scheds0.getD last none with
        | some a => rfl
        | none => rfl
      · show pullList [] = _
        rw [Nat.sub_self]
        rfl
      · intro sid nd h
        simp at h
    | some i0 =>
      have hi0 : i0 = last := hidx i0 hit
      subst hi0
      dsimp only
      cases hdt : drainTasks fuel s cur with
      | error e =>
        intro hok
        simp at hok
      | ok w =>
        obtain ⟨s1, ts, evs1⟩ := w
        dsimp only
        have hds := dt_state fuel s cur s1 ts evs1 hdt
        have hit1 : s1.iTrainNode = some i0 := by rw [hds.2.2, hit]
        have hevs1shut : shutList evs1 = [] := by
          unfold shutList
          rw [List.filterMap_eq_nil]
          intro e he
          obtain ⟨id, -, he2⟩ := dt_events fuel s cur s1 ts evs1 hdt e he
          subst he2
          rfl
        have hevs1pull : pullList evs1 = [] := by
          unfold pullList
          rw [List.filterMap_eq_nil]
          intro e he
          obtain ⟨id, -, he2⟩ := dt_events fuel s cur s1 ts evs1 hdt e he
          subst he2
          rfl
        have hevs1add : ∀ sid nd, Event.addTask sid nd ∈ evs1 →
            ∃ i2, nd = some i2 ∧ scheds0.getD i2 none = some sid := by
          intro sid nd hmem
          obtain ⟨id, hc, he2⟩ := dt_events fuel s cur s1 ts evs1 hdt _ hmem
          injection he2 with h1 h2
          refine ⟨i0, ?_, ?_⟩
          · rw [h2, hit]
          · rw [← hcur, hc, h1]
        by_cases hts : ts.length = 0
        · rw [if_pos hts]
          intro hok
          simp at hok
        · rw [if_neg hts]
          cases hur : (use_results fuel s1
              (List.replicate ts.length ([] : Chunk))).1 with
          | error e =>
            dsimp only
            intro hok
            simp at hok
          | ok v =>
            dsimp only
            have hurshut : shutList (use_results fuel s1
                (List.replicate ts.length ([] : Chunk))).2.2 = [] :=
              shutList_eq_nil (ur_sched_free fuel s1 _)
            have hurpull : pullList (use_results fuel s1
                (List.replicate ts.length ([] : Chunk))).2.2 = [] :=
              pullList_eq_nil (ur_sched_free fuel s1 _)
            have huradd : ∀ (sid : Nat) (nd : Option Nat),
                Event.addTask sid nd ∉ (use_results fuel s1
                  (List.replicate ts.length ([] : Chunk))).2.2 :=
              fun sid nd =>
                not_addTask_of_sched_free (ur_sched_free fuel s1 _) sid nd
            cases hit2 : (use_results fuel s1
                (List.replicate ts.length ([] : Chunk))).2.1.iTrainNode with
            | some i =>
              dsimp only
              have hge : i0 ≤ i := ur_index_ge fuel s1 _ i0 i hit1 hit2
              by_cases hgt : i > i0
              · rw [if_pos hgt]
                cases hdk : disposeK (i - i0) cur rem with
                | mk dkr dkevs =>
                  cases dkr with
                  | error e =>
                    dsimp only
                    intro hok
                    simp at hok
                  | ok p =>
                    obtain ⟨cur2, rem2⟩ := p
                    dsimp only
                    intro hok
                    have hdk1 : (disposeK (i - i0) cur rem).1 =
                        .ok (cur2, rem2) := by rw [hdk]
                    have hlen : i - i0 ≤ rem.length :=
                      disposeK_ok_length (i - i0) cur rem (cur2, rem2) hdk1
                    obtain ⟨hd1, hd2, hd3, hd4⟩ :=
                      disposeK_spec (i - i0) cur rem hlen
                    rw [hdk1] at hd1
                    have hd1' : cur2 = (cur :: rem).getD (i - i0) none ∧
                        rem2 = rem.drop (i - i0) := by
                      injection hd1 with hh
                      exact ⟨congrArg Prod.fst hh, congrArg Prod.snd hh⟩
                    have hseg : cur :: rem = scheds0.drop i0 := by
                      rw [hcur, hrem, ← drop_eq_getD_cons scheds0 i0 hlast]
                    have hilen : i < scheds0.length := by
                      have hrl : rem.length = scheds0.length - (i0 + 1) := by
                        rw [hrem, List.length_drop]
                      omega
                    have hcur2' : cur2 = scheds0.getD i none := by
                      rw [hd1'.1, hseg, getD_drop]
                      congr 1
                      omega
                    have hrem2' : rem2 = scheds0.drop (i + 1) := by
                      rw [hd1'.2, hrem, List.drop_drop]
                      congr 1
                      omega
                    have hdkshut : shutList dkevs =
                        ((scheds0.drop i0).take (i - i0)).filterMap id := by
                      have hde : dkevs = (disposeK (i - i0) cur rem).2 := by
                        rw [hdk]
                      rw [hde, hd2, hseg]
                    have hdkpull : pullList dkevs =
                        (scheds0.drop (i0 + 1)).take (i - i0) := by
                      have hde : dkevs = (disposeK (i - i0) cur rem).2 := by
                        rw [hdk]
                      rw [hde, hd3, hrem]
                    have hdkadd : ∀ (sid : Nat) (nd : Option Nat),
                        Event.addTask sid nd ∉ dkevs := by
                      intro sid nd hmem
                      refine hd4 sid nd ?_
                      rw [hdk]
                      exact hmem
                    obtain ⟨n, hn1, hn2, hn3, hn4, hn5, hn6⟩ :=
                      ih (use_results fuel s1
                        (List.replicate ts.length ([] : Chunk))).2.1
                        cur2 rem2 i scheds0 hcur2' hrem2' hilen
                        (fun i2 h2 => by
                          rw [hit2] at h2
                          injection h2 with hh
                          exact hh.symm) hok
                    refine ⟨n, by omega, hn2, hn3, ?_, ?_, ?_⟩
                    · rw [shutList_append, shutList_append, shutList_append,
                        hevs1shut, hurshut, hdkshut]
                      simp only [List.nil_append, List.append_assoc]
                      rw [hn4]
                      rw [← List.filterMap_append]
                      congr 1
                      have h1 : n - i0 + 1 = (i - i0) + (n - i + 1) := by
                        omega
                      have hsplit := List.take_add (scheds0.drop i0)
                        (i - i0) (n - i + 1)
                      have hdd : (scheds0.drop i0).drop (i - i0) =
                          scheds0.drop i := by
                        rw [List.drop_drop]
                        congr 1
                        omega
                      rw [hdd] at hsplit
                      rw [h1, hsplit]
                    · rw [pullList_append, pullList_append, pullList_append,
                        hevs1pull, hurpull, hdkpull]
                      simp only [List.nil_append, List.append_assoc]
                      rw [hn5]
                      have h1 : n - i0 = (i - i0) + (n - i) := by omega
                      have hsplit := List.take_add (scheds0.drop (i0 + 1))
                        (i - i0) (n - i)
                      have hdd : (scheds0.drop (i0 + 1)).drop (i - i0) =
                          scheds0.drop (i + 1) := by
                        rw [List.drop_drop]
                        congr 1
                        omega
                      rw [hdd] at hsplit
                      rw [h1, hsplit]
                    · intro sid nd hmem
                      rw [List.mem_append, List.mem_append,
                        List.mem_append] at hmem
                      rcases hmem with ((hm | hm) | hm) | hm
                      · exact hevs1add sid nd hm
                      · exact absurd hm (huradd sid nd)
                      · exact absurd hm (hdkadd sid nd)
                      · exact hn6 sid nd hm
              · rw [if_neg hgt]
                have hieq : i = i0 := by omega
                subst hieq
                dsimp only
                intro hok
                obtain ⟨n, hn1, hn2, hn3, hn4, hn5, hn6⟩ :=
                  ih (use_results fuel s1
                    (List.replicate ts.length ([] : Chunk))).2.1
                    cur rem i scheds0 hcur hrem hlast
                    (fun i2 h2 => by
                      rw [hit2] at h2
                      injection h2 with hh
                      exact hh.symm) hok
                refine ⟨n, hn1, hn2, hn3, ?_, ?_, ?_⟩
                · rw [shutList_append, shutList_append,
                    hevs1shut, hurshut]
                  simp only [List.nil_append, List.append_assoc]
                  exact hn4
                · rw [pullList_append, pullList_append,
                    hevs1pull, hurpull]
                  simp only [List.nil_append]
                  exact hn5
                · intro sid nd hmem
                  rw [List.mem_append, List.mem_append] at hmem
                  rcases hmem with (hm | hm) | hm
                  · exact hevs1add sid nd hm
                  · exact absurd hm (huradd sid nd)
                  · exact hn6 sid nd hm
            | none =>
              dsimp only
              intro hok
              obtain ⟨n, hn1, hn2, hn3, hn4, hn5, hn6⟩ :=
                ih (use_results fuel s1
                  (List.replicate ts.length ([] : Chunk))).2.1
                  cur rem i0 scheds0 hcur hrem hlast
                  (fun i2 h2 => by
                    rw [hit2] at h2
                    cases h2) hok
              refine ⟨n, hn1, hn2, hn3, ?_, ?_, ?_⟩
              · rw [shutList_append, shutList_append, hevs1shut, hurshut]
                simp only [List.nil_append, List.append_assoc]
                exact hn4
              · rw [pullList_append, pullList_append, hevs1pull, hurpull]
                simp only [List.nil_append]
                exact hn5
              · intro sid nd hmem
                rw [List.mem_append, List.mem_append] at hmem
                rcases hmem with (hm | hm) | hm
                · exact hevs1add sid nd hm
                · exact absurd hm (huradd sid nd)
                · exact hn6 sid nd hm

theorem shutList_shut_opt (x : Option Nat) :
    shutList (match x with
      | some id => [Event.shutdown id]
      | none => ([] : List Event)) = x.toList := by
  cases x <;> rfl

theorem pullList_shut_opt (x : Option Nat) :
    pullList (match x with
      | some id => [Event.shutdown id]
      | none => ([] : List Event)) = [] := by
  cases x <;> rfl

theorem addTask_shut_opt (x : Option Nat) (sid : Nat) (nd : Option Nat) :
    Event.addTask sid nd ∉ (match x with
      | some id => [Event.shutdown id]
      | none => ([] : List Event)) := by
  cases x with
  | some id =>
    intro h
    simp at h
  | none =>
    intro h
    simp at h

theorem shutList_pullS (c : Option Nat) :
    shutList [Event.pullSched c] = [] := rfl

theorem pullList_pullS (c : Option Nat) :
    pullList [Event.pullSched c] = [c] := rfl

/-- C6. A whole multi-scheduler training run consumes the scheduler sequence
as a prefix: the pulls recorded in the trace are exactly the first `k`
entries of the sequence for some `k`, every pulled scheduler that is not
`None` is shut down exactly once and in order (the final active one included,
by the `finally` clause), `None` entries are skipped by the shutdowns, and
every task handed out for node `i2` went to the scheduler at position `i2`
of the sequence — the rotation advances in lock-step with the training node
index, disposing one scheduler per index skipped for pretrained nodes and
the leading `len(flow) - 1` schedulers when training is already complete. -/
theorem c6_scheduler_rotation (fuel : Nat) (s : PFState)
    (its : List (Nat → List Chunk)) (scheds : List (Option Nat)) :
    (trainMS fuel s its scheds).1 = .ok () →
    ∃ k, k ≤ scheds.length ∧
      pullList (trainMS fuel s its scheds).2.2 = scheds.take k ∧
      shutList (trainMS fuel s its scheds).2.2 =
        (scheds.take k).filterMap id ∧
      ∀ sid i2, Event.addTask sid (some i2) ∈ (trainMS fuel s its scheds).2.2 →
        scheds.getD i2 none = some sid := by
  rw [trainMS]
  by_cases hsome : s.iTrainNode.isSome
  · rw [if_pos hsome]
    intro hok
    simp at hok
  · rw [if_neg hsome]
    cases hsetup : setup_parallel_training fuel s its with
    | mk r1 w =>
      obtain ⟨s1, evs0⟩ := w
      cases r1 with
      | error e =>
        intro hok
        simp at hok
      | ok u =>
        have hsetup2 : nextTrainPhaseAux fuel
            { s with trainIterables := its, iTrainNode := some 0 } 0 =
            (.ok u, s1, evs0) := by
          unfold setup_parallel_training at hsetup
          rw [if_neg hsome] at hsetup
          by_cases hlen : its.length ≠ s.flow.length
          · rw [if_pos hlen] at hsetup
            simp at hsetup
          · rw [if_neg hlen] at hsetup
            exact hsetup
        have hevs0free : ∀ e ∈ evs0, isSchedEvent e = false := by
          have := aux_sched_free fuel
            { s with trainIterables := its, iTrainNode := some 0 } 0
          rw [hsetup2] at this
          exact this
        have hevs0shut : shutList evs0 = [] := shutList_eq_nil hevs0free
        have hevs0pull : pullList evs0 = [] := pullList_eq_nil hevs0free
        cases scheds with
        | nil =>
          intro hok
          simp at hok
        | cons c0 rest0 =>
          dsimp only
          cases hit1 : s1.iTrainNode with
          | some i0 =>
            dsimp only
            by_cases hgt : i0 > 0
            · rw [if_pos hgt]
              cases hdk : disposeK i0 c0 rest0 with
              | mk dkr dkevs =>
                cases dkr with
                | error e =>
                  dsimp only
                  intro hok
                  simp at hok
                | ok p =>
                  obtain ⟨cur, rem⟩ := p
                  dsimp only
                  intro hok
                  have hdk1 : (disposeK i0 c0 rest0).1 = .ok (cur, rem) := by
                    rw [hdk]
                  have hlen1 : i0 ≤ rest0.length :=
                    disposeK_ok_length i0 c0 rest0 (cur, rem) hdk1
                  obtain ⟨hd1, hd2, hd3, hd4⟩ :=
                    disposeK_spec i0 c0 rest0 hlen1
                  rw [hdk1] at hd1
                  have hd1' : cur = (c0 :: rest0).getD i0 none ∧
                      rem = rest0.drop i0 := by
                    injection hd1 with hh
                    exact ⟨congrArg Prod.fst hh, congrArg Prod.snd hh⟩
                  have hdkshut : shutList dkevs =
                      ((c0 :: rest0).take i0).filterMap id := by
                    have hde : dkevs = (disposeK i0 c0 rest0).2 := by
                      rw [hdk]
                    rw [hde, hd2]
                  have hdkpull : pullList dkevs = rest0.take i0 := by
                    have hde : dkevs = (disposeK i0 c0 rest0).2 := by
                      rw [hdk]
                    rw [hde, hd3]
                  have hdkadd : ∀ (sid : Nat) (nd : Option Nat),
                      Event.addTask sid nd ∉ dkevs := by
                    intro sid nd hmem
                    refine hd4 sid nd ?_
                    rw [hdk]
                    exact hmem
                  have hrem' : rem = (c0 :: rest0).drop (i0 + 1) := by
                    rw [hd1'.2]
                    rfl
                  have hi0len : i0 < (c0 :: rest0).length := by
                    rw [List.length_cons]
                    omega
                  obtain ⟨n, hn1, hn2, hn3, hn4, hn5, hn6⟩ :=
                    loop_sched fuel s1 cur rem i0 (c0 :: rest0)
                      hd1'.1 hrem' hi0len
                      (fun i2 h2 => by
                        rw [hit1] at h2
                        injection h2 with hh
                        exact hh.symm) hok
                  rw [List.length_cons] at hn2
                  refine ⟨n + 1, by rw [List.length_cons]; omega, ?_, ?_, ?_⟩
                  · rw [pullList_append, pullList_append, pullList_append,
                      pullList_append, pullList_pullS, hevs0pull, hdkpull,
                      hn5, pullList_shut_opt]
                    simp only [List.nil_append, List.append_nil,
                      List.singleton_append, List.drop_succ_cons,
                      List.take_succ_cons]
                    congr 1
                    have hsplit := List.take_add rest0 i0 (n - i0)
                    rw [← hsplit]
                    congr 1
                    omega
                  · rw [shutList_append, shutList_append, shutList_append,
                      shutList_append, shutList_pullS, hevs0shut, hdkshut,
                      hn3, shutList_shut_opt]
                    simp only [List.nil_append, List.append_assoc]
                    rw [hn4]
                    rw [← List.filterMap_append]
                    congr 1
                    have hsplit := List.take_add (c0 :: rest0) i0 (n - i0 + 1)
                    rw [← hsplit]
                    congr 1
                    omega
                  · intro sid i2 hmem
                    simp only [List.mem_append] at hmem
                    rcases hmem with ((hm | hm) | (hm | hm)) | hm
                    · simp at hm
                    · exact absurd hm
                        (not_addTask_of_sched_free hevs0free sid (some i2))
                    · exact absurd hm (hdkadd sid (some i2))
                    · obtain ⟨i3, heq, hg⟩ := hn6 sid (some i2) hm
                      injection heq with hh
                      rw [hh]
                      exact hg
                    · exact absurd hm
                        (addTask_shut_opt _ sid (some i2))
            · rw [if_neg hgt]
              intro hok
              have hi00 : i0 = 0 := by omega
              subst hi00
              obtain ⟨n, hn1, hn2, hn3, hn4, hn5, hn6⟩ :=
                loop_sched fuel s1 c0 rest0 0 (c0 :: rest0)
                  rfl rfl (by rw [List.length_cons]; omega)
                  (fun i2 h2 => by
                    rw [hit1] at h2
                    injection h2 with hh
                    exact hh.symm) hok
              rw [List.length_cons] at hn2
              simp only [Nat.sub_zero, List.drop_succ_cons,
                List.drop_zero] at hn4 hn5
              refine ⟨n + 1, by rw [List.length_cons]; omega, ?_, ?_, ?_⟩
              · rw [pullList_append, pullList_append, pullList_append,
                  pullList_pullS, hevs0pull, hn5, pullList_shut_opt]
                simp only [List.nil_append, List.append_nil,
                  List.singleton_append, List.take_succ_cons]
              · rw [shutList_append, shutList_append, shutList_append,
                  shutList_pullS, hevs0shut, hn3, shutList_shut_opt]
                simp only [List.nil_append]
                exact hn4
              · intro sid i2 hmem
                simp only [List.mem_append] at hmem
                rcases hmem with ((hm | hm) | hm) | hm
                · simp at hm
                · exact absurd hm
                    (not_addTask_of_sched_free hevs0free sid (some i2))
                · obtain ⟨i3, heq, hg⟩ := hn6 sid (some i2) hm
                  injection heq with hh
                  rw [hh]
                  exact hg
                · exact absurd hm
                    (addTask_shut_opt _ sid (some i2))
          | none =>
            dsimp only
            cases hdk : disposeK (s.flow.length - 1) c0 rest0 with
            | mk dkr dkevs =>
              cases dkr with
              | error e =>
                dsimp only
                intro hok
                simp at hok
              | ok p =>
                obtain ⟨cur, rem⟩ := p
                dsimp only
                intro _
                have hdk1 : (disposeK (s.flow.length - 1) c0 rest0).1 =
                    .ok (cur, rem) := by
                  rw [hdk]
                have hlen1 : s.flow.length - 1 ≤ rest0.length :=
                  disposeK_ok_length (s.flow.length - 1) c0 rest0
                    (cur, rem) hdk1
                obtain ⟨hd1, hd2, hd3, hd4⟩ :=
                  disposeK_spec (s.flow.length - 1) c0 rest0 hlen1
                rw [hdk1] at hd1
                have hcur : cur =
                    (c0 :: rest0).getD (s.flow.length - 1) none := by
                  injection hd1 with hh
                  exact congrArg Prod.fst hh
                have hdkshut : shutList dkevs =
                    ((c0 :: rest0).take (s.flow.length - 1)).filterMap id := by
                  have hde : dkevs =
                      (disposeK (s.flow.length - 1) c0 rest0).2 := by
                    rw [hdk]
                  rw [hde, hd2]
                have hdkpull : pullList dkevs =
                    rest0.take (s.flow.length - 1) := by
                  have hde : dkevs =
                      (disposeK (s.flow.length - 1) c0 rest0).2 := by
                    rw [hdk]
                  rw [hde, hd3]
                have hdkadd : ∀ (sid : Nat) (nd : Option Nat),
                    Event.addTask sid nd ∉ dkevs := by
                  intro sid nd hmem
                  refine hd4 sid nd ?_
                  rw [hdk]
                  exact hmem
                refine ⟨s.flow.length - 1 + 1,
                  by rw [List.length_cons]; omega, ?_, ?_, ?_⟩
                · rw [pullList_append, pullList_append, pullList_append,
                    pullList_pullS, hevs0pull, hdkpull, pullList_shut_opt]
                  simp only [List.nil_append, List.append_nil,
                    List.singleton_append, List.take_succ_cons]
                · rw [shutList_append, shutList_append, shutList_append,
                    shutList_pullS, hevs0shut, hdkshut, hcur,
                    shutList_shut_opt]
                  simp only [List.nil_append]
                  rw [fm_take_succ (c0 :: rest0) (s.flow.length - 1)
                    (by rw [List.length_cons]; omega)]
                · intro sid i2 hmem
                  simp only [List.mem_append] at hmem
                  rcases hmem with ((hm | hm) | hm) | hm
                  · simp at hm
                  · exact absurd hm
                      (not_addTask_of_sched_free hevs0free sid (some i2))
                  · exact absurd hm (hdkadd sid (some i2))
                  · exact absurd hm
                      (addTask_shut_opt _ sid (some i2))

theorem c6_scheduler_rotation_witness :
    ((trainMS 20 (pfInit [⟨1, 0, fun _ => true⟩, ⟨1, 0, fun _ => true⟩]
        [none, none] ⟨false⟩)
        [fun _ => [[1]], fun _ => [[2]]] [some 5, some 6]).1 = .ok ()) ∧
    (∃ k, k ≤ ([some 5, some 6] : List (Option Nat)).length ∧
      pullList (trainMS 20 (pfInit [⟨1, 0, fun _ => true⟩,
          ⟨1, 0, fun _ => true⟩] [none, none] ⟨false⟩)
          [fun _ => [[1]], fun _ => [[2]]] [some 5, some 6]).2.2 =
        ([some 5, some 6] : List (Option Nat)).take k ∧
      shutList (trainMS 20 (pfInit [⟨1, 0, fun _ => true⟩,
          ⟨1, 0, fun _ => true⟩] [none, none] ⟨false⟩)
          [fun _ => [[1]], fun _ => [[2]]] [some 5, some 6]).2.2 =
        (([some 5, some 6] : List (Option Nat)).take k).filterMap id ∧
      ∀ sid i2, Event.addTask sid (some i2) ∈
          (trainMS 20 (pfInit [⟨1, 0, fun _ => true⟩,
            ⟨1, 0, fun _ => true⟩] [none, none] ⟨false⟩)
            [fun _ => [[1]], fun _ => [[2]]] [some 5, some 6]).2.2 →
        ([some 5, some 6] : List (Option Nat)).getD i2 none = some sid) :=
  ⟨rfl,
   c6_scheduler_rotation 20 (pfInit [⟨1, 0, fun _ => true⟩,
      ⟨1, 0, fun _ => true⟩] [none, none] ⟨false⟩)
     [fun _ => [[1]], fun _ => [[2]]] [some 5, some 6] rfl⟩

end ParallelFlows
